import Mathlib

/-!
Verification of the RL-GUI telemetry core against its specification.

The development shallowly embeds the three components the claims are about:

* the central telemetry store (`src/store/telemetryStore.ts`),
* the WebSocket connection manager and the zod packet validator
  (`src/hooks/useTelemetryWebSocket.ts`, first document),
* the two flight-simulator variants (`useTelemetrySimulation`, second and
  third documents of the same file).

Numeric packet fields are modelled as rationals (the wire format carries
decimal numbers and none of the claims depend on floating-point artefacts);
the derived session maxima, which the store computes with `Math.sqrt`, live
in `ℝ`.  Sensor noise (`Math.random()`) affects only the synthesized sensor
readings inside an emitted packet, never the simulator's state or the
emitted flight phase, so the simulator embedding records the deterministic
state evolution together with the phase carried by each emitted packet.
-/

/-! ## Data model (`src/types/TelemetryPacket.ts`) -/

/-- A 3-axis vector of numeric readings. -/
structure Vec3 where
  x : ℚ
  y : ℚ
  z : ℚ
deriving DecidableEq, Repr

/-- IMU block of a packet: accelerometer, gyroscope, magnetometer. -/
structure IMUData where
  accel : Vec3
  gyro : Vec3
  mag : Vec3
deriving DecidableEq, Repr

/-- GPS block of a packet. -/
structure GPSData where
  lat : ℚ
  lon : ℚ
  alt : ℚ
  heading : ℚ
deriving DecidableEq, Repr

/-- Barometer block of a packet. -/
structure BaroData where
  pressure : ℚ
  altitude : ℚ
deriving DecidableEq, Repr

/-- The seven-value flight phase enumeration, in its nominal order. -/
inductive FlightPhase where
  | preFlight
  | poweredAscent
  | burnout
  | apogee
  | drogueDeploy
  | mainDeploy
  | landed
deriving DecidableEq, Repr

/-- Position of a phase in the nominal forward order
`pre-flight, powered-ascent, burnout, apogee, drogue-deploy, main-deploy,
landed`. -/
def FlightPhase.rank : FlightPhase → ℕ
  | .preFlight => 0
  | .poweredAscent => 1
  | .burnout => 2
  | .apogee => 3
  | .drogueDeploy => 4
  | .mainDeploy => 5
  | .landed => 6

/-- One telemetry sample (`TelemetryPacket`). -/
structure TelemetryPacket where
  timestamp : ℚ
  imu : IMUData
  gps : GPSData
  baro : BaroData
  velocity : Vec3
  phase : FlightPhase
  battery : ℚ
  rssi : ℚ
deriving DecidableEq, Repr

/-- Log entry severity (`LogEntry.type`). -/
inductive LogType where
  | info
  | error
  | warning
  | success
deriving DecidableEq, Repr

/-- A console log entry.  The `Date` timestamp is modelled as milliseconds
since epoch. -/
structure LogEntry where
  type : LogType
  message : String
  timestamp : ℕ
deriving DecidableEq, Repr

/-- Running session maxima (`SessionMaxima`); the store derives these with
`Math.sqrt`, so they live in `ℝ`. -/
structure SessionMaxima where
  maxAltitude : ℝ
  maxVelocity : ℝ
  maxAcceleration : ℝ
  maxGForce : ℝ

/-! ## Telemetry store (`src/store/telemetryStore.ts`) -/

/-- The history capacity (`HISTORY_BUFFER_SIZE = 3000`). -/
def HISTORY_BUFFER_SIZE : ℕ := 3000

/-- The mutable zustand state of `useTelemetryStore`. -/
structure StoreState where
  isConnected : Bool
  isSimulating : Bool
  selectedDevice : String
  currentPacket : Option TelemetryPacket
  history : List TelemetryPacket
  sessionMaxima : SessionMaxima
  logs : List LogEntry
  followLatest : Bool

/-- The store's initial state (lines 34–46 of `telemetryStore.ts`). -/
def initialStore : StoreState :=
  { isConnected := false
    isSimulating := false
    selectedDevice := ""
    currentPacket := none
    history := []
    sessionMaxima := ⟨0, 0, 0, 0⟩
    logs := []
    followLatest := true }

/-- `addLog`: append, trimming the oldest entry beyond 1000. -/
def addLog (entry : LogEntry) (s : StoreState) : StoreState :=
  let newLogs := s.logs ++ [entry]
  let newLogs := if 1000 < newLogs.length then newLogs.tail else newLogs
  { s with logs := newLogs }

/-- `setConnected`: update the flag and emit the corresponding log entry
(`new Date()` modelled by the `now` argument). -/
def setConnected (connected : Bool) (now : ℕ) (s : StoreState) : StoreState :=
  addLog
    { type := if connected then .success else .warning
      message :=
        if connected then "Connected to telemetry source"
        else "Disconnected from telemetry source"
      timestamp := now }
    { s with isConnected := connected }

/-- `setSimulating`: update the flag and emit the corresponding log entry. -/
def setSimulating (simulating : Bool) (now : ℕ) (s : StoreState) : StoreState :=
  addLog
    { type := .info
      message :=
        if simulating then "Started simulation mode" else "Stopped simulation mode"
      timestamp := now }
    { s with isSimulating := simulating }

/-- Euclidean magnitude of the packet's IMU acceleration vector, as the
store computes it (`Math.sqrt(x**2 + y**2 + z**2)`). -/
noncomputable def accelMagnitude (p : TelemetryPacket) : ℝ :=
  Real.sqrt ((p.imu.accel.x : ℝ) ^ 2 + (p.imu.accel.y : ℝ) ^ 2 + (p.imu.accel.z : ℝ) ^ 2)

/-- Euclidean magnitude of the packet's velocity vector. -/
noncomputable def velocityMagnitude (p : TelemetryPacket) : ℝ :=
  Real.sqrt ((p.velocity.x : ℝ) ^ 2 + (p.velocity.y : ℝ) ^ 2 + (p.velocity.z : ℝ) ^ 2)

/-- `addTelemetryPacket` (lines 68–100 of `telemetryStore.ts`): set
`currentPacket`, append to `history` with FIFO eviction beyond the buffer
size, and push the session maxima up by the packet's derived magnitudes. -/
noncomputable def addTelemetryPacket (p : TelemetryPacket) (s : StoreState) : StoreState :=
  let newHistory := s.history ++ [p]
  let newHistory :=
    if HISTORY_BUFFER_SIZE < newHistory.length then newHistory.tail else newHistory
  let gForce : ℝ := accelMagnitude p / 9.81
  let newMaxima : SessionMaxima :=
    { maxAltitude := max s.sessionMaxima.maxAltitude (p.baro.altitude : ℝ)
      maxVelocity := max s.sessionMaxima.maxVelocity (velocityMagnitude p)
      maxAcceleration := max s.sessionMaxima.maxAcceleration (accelMagnitude p)
      maxGForce := max s.sessionMaxima.maxGForce gForce }
  { s with
    currentPacket := some p
    history := newHistory
    sessionMaxima := newMaxima }

/-- `clearHistory` (lines 114–122): reset `history` and `sessionMaxima`,
touching nothing else. -/
def clearHistory (s : StoreState) : StoreState :=
  { s with
    history := []
    sessionMaxima := ⟨0, 0, 0, 0⟩ }

/-- Feeding a whole sequence of packets to the store, oldest first. -/
noncomputable def runStore (s : StoreState) (ps : List TelemetryPacket) : StoreState :=
  ps.foldl (fun acc p => addTelemetryPacket p acc) s

/-- A packet that is all zeros except for an index recorded in `timestamp`;
used to feed distinguishable packets to the store. -/
def idxPacket (n : ℕ) : TelemetryPacket :=
  { timestamp := n
    imu := ⟨⟨0, 0, 0⟩, ⟨0, 0, 0⟩, ⟨0, 0, 0⟩⟩
    gps := ⟨0, 0, 0, 0⟩
    baro := ⟨0, 0⟩
    velocity := ⟨0, 0, 0⟩
    phase := .preFlight
    battery := 0
    rssi := 0 }

/-! ### History lemmas (claim C2) -/

theorem addTelemetryPacket_history (p : TelemetryPacket) (s : StoreState) :
    (addTelemetryPacket p s).history =
      if HISTORY_BUFFER_SIZE < (s.history ++ [p]).length
      then (s.history ++ [p]).tail else s.history ++ [p] := by
  simp [addTelemetryPacket]

theorem runStore_cons (p : TelemetryPacket) (ps : List TelemetryPacket) (s : StoreState) :
    runStore s (p :: ps) = runStore (addTelemetryPacket p s) ps := by
  simp [runStore]

theorem runStore_history (ps : List TelemetryPacket) :
    ∀ s : StoreState, s.history.length ≤ HISTORY_BUFFER_SIZE →
      (runStore s ps).history =
        (s.history ++ ps).drop (s.history.length + ps.length - HISTORY_BUFFER_SIZE) := by
  induction ps with
  | nil =>
    intro s hs
    have h0 : s.history.length + ([] : List TelemetryPacket).length - HISTORY_BUFFER_SIZE = 0 := by
      simp only [List.length_nil]
      omega
    rw [h0]
    simp [runStore]
  | cons p ps ih =>
    intro s hs
    rw [runStore_cons]
    rcases Nat.lt_or_ge s.history.length HISTORY_BUFFER_SIZE with hlt | hge
    · -- not yet full: the new packet is simply appended
      have hlen : ¬ HISTORY_BUFFER_SIZE < (s.history ++ [p]).length := by
        simp only [List.length_append, List.length_cons, List.length_nil]
        omega
      have hh : (addTelemetryPacket p s).history = s.history ++ [p] := by
        rw [addTelemetryPacket_history, if_neg hlen]
      have hlen2 : (addTelemetryPacket p s).history.length ≤ HISTORY_BUFFER_SIZE := by
        rw [hh]
        simp only [List.length_append, List.length_cons, List.length_nil]
        omega
      rw [ih _ hlen2, hh]
      simp only [List.append_assoc, List.singleton_append, List.nil_append,
        List.length_append, List.length_cons, List.length_nil]
      rw [show s.history.length + (0 + 1) + ps.length - HISTORY_BUFFER_SIZE
          = s.history.length + (ps.length + 1) - HISTORY_BUFFER_SIZE from by omega]
    · -- full: the oldest entry is evicted
      have hfull : s.history.length = HISTORY_BUFFER_SIZE := le_antisymm hs hge
      obtain ⟨q, rest, hqr⟩ : ∃ q rest, s.history = q :: rest := by
        cases hsh : s.history with
        | nil =>
          exfalso
          rw [hsh] at hfull
          simp only [List.length_nil] at hfull
          have hB : 0 < HISTORY_BUFFER_SIZE := by norm_num [HISTORY_BUFFER_SIZE]
          omega
        | cons q rest => exact ⟨q, rest, rfl⟩
      have hlen : HISTORY_BUFFER_SIZE < (s.history ++ [p]).length := by
        simp only [List.length_append, List.length_cons, List.length_nil]
        omega
      have hh : (addTelemetryPacket p s).history = rest ++ [p] := by
        rw [addTelemetryPacket_history, if_pos hlen, hqr]
        simp
      have hrest : rest.length + 1 = HISTORY_BUFFER_SIZE := by
        rw [hqr] at hfull
        simpa using hfull
      have hlen2 : (addTelemetryPacket p s).history.length ≤ HISTORY_BUFFER_SIZE := by
        rw [hh]
        simp only [List.length_append, List.length_cons, List.length_nil]
        omega
      rw [ih _ hlen2, hh, hqr]
      simp only [List.append_assoc, List.singleton_append, List.length_append,
        List.length_cons, List.length_nil, List.cons_append]
      rw [show rest.length + (0 + 1) + ps.length - HISTORY_BUFFER_SIZE = ps.length from by omega,
        show rest.length + 1 + (ps.length + 1) - HISTORY_BUFFER_SIZE = ps.length + 1 from by omega,
        List.drop_succ_cons]
      simp

/-- C2: starting from the empty store, `history` never exceeds 3000 entries
and holds exactly the most recent packets in insertion order (FIFO eviction
of the oldest when full); in particular, after inserting the 3001 packets
`idxPacket 0, …, idxPacket 3000`, the first remaining entry is
`idxPacket 1`, the second inserted packet. -/
theorem spec_history_capacity_fifo :
    (∀ ps : List TelemetryPacket,
        (runStore initialStore ps).history = ps.drop (ps.length - HISTORY_BUFFER_SIZE)) ∧
    (∀ ps : List TelemetryPacket,
        (runStore initialStore ps).history.length ≤ HISTORY_BUFFER_SIZE) ∧
    (runStore initialStore ((List.range 3001).map idxPacket)).history.head? =
      some (idxPacket 1) := by
  have hform : ∀ ps : List TelemetryPacket,
      (runStore initialStore ps).history = ps.drop (ps.length - HISTORY_BUFFER_SIZE) := by
    intro ps
    have h := runStore_history ps initialStore (by simp [initialStore, HISTORY_BUFFER_SIZE])
    simpa [initialStore] using h
  refine ⟨hform, fun ps => ?_, ?_⟩
  · rw [hform]
    simp only [List.length_drop]
    omega
  · rw [hform]
    have hlen : ((List.range 3001).map idxPacket).length - HISTORY_BUFFER_SIZE = 1 := by
      simp [HISTORY_BUFFER_SIZE]
    rw [hlen, ← List.map_drop]
    have hr : List.range 3001 = 0 :: (List.range 3000).map Nat.succ := by
      rw [show (3001 : ℕ) = 3000 + 1 from rfl, List.range_succ_eq_map]
    rw [hr]
    have hr2 : List.range 3000 = 0 :: (List.range 2999).map Nat.succ := by
      rw [show (3000 : ℕ) = 2999 + 1 from rfl, List.range_succ_eq_map]
    simp [hr2]

/-- A packet whose IMU acceleration is `(0, 0, 9.81)`. -/
def gPacket : TelemetryPacket :=
  { idxPacket 0 with imu := ⟨⟨0, 0, 981/100⟩, ⟨0, 0, 0⟩, ⟨0, 0, 0⟩⟩ }

/-- C3: every `addTelemetryPacket` call leaves each of the four
`sessionMaxima` fields no smaller than before (so each field is
monotonically non-decreasing over any sequence of insertions), and feeding
a packet whose IMU acceleration is `(0, 0, 9.81)` as the first packet of a
session makes `maxGForce` exactly `1`. -/
theorem spec_session_maxima_monotone_gforce :
    (∀ (s : StoreState) (ps : List TelemetryPacket),
        s.sessionMaxima.maxAltitude ≤ (runStore s ps).sessionMaxima.maxAltitude ∧
        s.sessionMaxima.maxVelocity ≤ (runStore s ps).sessionMaxima.maxVelocity ∧
        s.sessionMaxima.maxAcceleration ≤ (runStore s ps).sessionMaxima.maxAcceleration ∧
        s.sessionMaxima.maxGForce ≤ (runStore s ps).sessionMaxima.maxGForce) ∧
    (addTelemetryPacket (gPacket) initialStore).sessionMaxima.maxGForce = 1 := by
  constructor
  · intro s ps
    induction ps generalizing s with
    | nil => simp [runStore]
    | cons p ps ih =>
      rw [runStore_cons]
      have hstep :
          s.sessionMaxima.maxAltitude ≤ (addTelemetryPacket p s).sessionMaxima.maxAltitude ∧
          s.sessionMaxima.maxVelocity ≤ (addTelemetryPacket p s).sessionMaxima.maxVelocity ∧
          s.sessionMaxima.maxAcceleration ≤
            (addTelemetryPacket p s).sessionMaxima.maxAcceleration ∧
          s.sessionMaxima.maxGForce ≤ (addTelemetryPacket p s).sessionMaxima.maxGForce := by
        refine ⟨?_, ?_, ?_, ?_⟩ <;> simp [addTelemetryPacket]
      obtain ⟨h1, h2, h3, h4⟩ := hstep
      obtain ⟨g1, g2, g3, g4⟩ := ih (addTelemetryPacket p s)
      exact ⟨h1.trans g1, h2.trans g2, h3.trans g3, h4.trans g4⟩
  · have hmag : accelMagnitude gPacket = 9.81 := by
      have : ((0 : ℚ) : ℝ) ^ 2 + ((0 : ℚ) : ℝ) ^ 2 + (((981 : ℚ)/100 : ℚ) : ℝ) ^ 2
          = ((981 : ℝ)/100) ^ 2 := by
        push_cast
        ring
      rw [accelMagnitude]
      show Real.sqrt (((0 : ℚ) : ℝ) ^ 2 + ((0 : ℚ) : ℝ) ^ 2 + (((981 : ℚ)/100 : ℚ) : ℝ) ^ 2)
        = 9.81
      rw [this, Real.sqrt_sq (by norm_num)]
      norm_num
    simp only [addTelemetryPacket, initialStore]
    rw [hmag]
    norm_num

/-- C7: `clearHistory()` resets `history` to the empty sequence and all
four `sessionMaxima` fields to `0`, while `logs`, `currentPacket` and every
other store field are left unchanged. -/
theorem spec_clearHistory_frame (s : StoreState) :
    (clearHistory s).history = [] ∧
    (clearHistory s).sessionMaxima.maxAltitude = 0 ∧
    (clearHistory s).sessionMaxima.maxVelocity = 0 ∧
    (clearHistory s).sessionMaxima.maxAcceleration = 0 ∧
    (clearHistory s).sessionMaxima.maxGForce = 0 ∧
    (clearHistory s).logs = s.logs ∧
    (clearHistory s).currentPacket = s.currentPacket ∧
    (clearHistory s).isConnected = s.isConnected ∧
    (clearHistory s).isSimulating = s.isSimulating ∧
    (clearHistory s).selectedDevice = s.selectedDevice ∧
    (clearHistory s).followLatest = s.followLatest := by
  refine ⟨rfl, rfl, rfl, rfl, rfl, rfl, rfl, rfl, rfl, rfl, rfl⟩

/-- C10: `addTelemetryPacket` updates `maxAltitude` as the maximum of its
previous value and the packet's barometric altitude `baro.altitude`; the
GPS altitude `gps.alt` never influences `maxAltitude` (replacing it by any
other value leaves the result unchanged). -/
theorem spec_maxAltitude_from_baro (s : StoreState) (p : TelemetryPacket) :
    (addTelemetryPacket p s).sessionMaxima.maxAltitude =
      max s.sessionMaxima.maxAltitude (p.baro.altitude : ℝ) ∧
    (∀ a : ℚ,
      (addTelemetryPacket { p with gps := { p.gps with alt := a } } s).sessionMaxima.maxAltitude =
        (addTelemetryPacket p s).sessionMaxima.maxAltitude) := by
  constructor
  · rfl
  · intro a
    rfl

/-! ## Wire format and the zod packet validator
(`TelemetryPacketSchema`, lines 7–28 of `useTelemetryWebSocket.ts`) -/

/-- A JSON value as produced by `JSON.parse` on an inbound text frame.
Numbers are rationals (the claims do not depend on float artefacts). -/
inductive Json where
  | num (q : ℚ)
  | str (s : String)
  | bool (b : Bool)
  | null
  | arr (elems : List Json)
  | obj (fields : List (String × Json))

/-- Field access on a JSON object; `none` on missing keys and on
non-objects (zod rejects non-objects wherever `z.object` is expected). -/
def getField (j : Json) (k : String) : Option Json :=
  match j with
  | .obj kvs => kvs.lookup k
  | _ => none

/-- `z.number()`: accept exactly JSON numbers. -/
def asNum (j : Json) : Option ℚ :=
  match j with
  | .num q => some q
  | _ => none

/-- A required numeric field of an object. -/
def numField (j : Json) (k : String) : Option ℚ :=
  (getField j k).bind asNum

/-- `z.object({x, y, z})` of three `z.number()` fields. -/
def parseVec3Schema (j : Json) : Option Vec3 := do
  let x ← numField j "x"
  let y ← numField j "y"
  let z ← numField j "z"
  some ⟨x, y, z⟩

/-- The `imu` sub-schema. -/
def parseIMUSchema (j : Json) : Option IMUData := do
  let accel ← (getField j "accel").bind parseVec3Schema
  let gyro ← (getField j "gyro").bind parseVec3Schema
  let mag ← (getField j "mag").bind parseVec3Schema
  some ⟨accel, gyro, mag⟩

/-- The `gps` sub-schema. -/
def parseGPSSchema (j : Json) : Option GPSData := do
  let lat ← numField j "lat"
  let lon ← numField j "lon"
  let alt ← numField j "alt"
  let heading ← numField j "heading"
  some ⟨lat, lon, alt, heading⟩

/-- The `baro` sub-schema. -/
def parseBaroSchema (j : Json) : Option BaroData := do
  let pressure ← numField j "pressure"
  let altitude ← numField j "altitude"
  some ⟨pressure, altitude⟩

/-- The seven wire spellings of the `phase` enumeration, in schema order. -/
def phaseStrings : List String :=
  ["pre-flight", "powered-ascent", "burnout", "apogee", "drogue-deploy",
   "main-deploy", "landed"]

/-- Wire spelling of a flight phase. -/
def phaseToString : FlightPhase → String
  | .preFlight => "pre-flight"
  | .poweredAscent => "powered-ascent"
  | .burnout => "burnout"
  | .apogee => "apogee"
  | .drogueDeploy => "drogue-deploy"
  | .mainDeploy => "main-deploy"
  | .landed => "landed"

/-- `z.enum([...])` for the seven phase spellings. -/
def phaseOfString (s : String) : Option FlightPhase :=
  if s = "pre-flight" then some .preFlight
  else if s = "powered-ascent" then some .poweredAscent
  else if s = "burnout" then some .burnout
  else if s = "apogee" then some .apogee
  else if s = "drogue-deploy" then some .drogueDeploy
  else if s = "main-deploy" then some .mainDeploy
  else if s = "landed" then some .landed
  else none

/-- The `phase` field: must be a string among the enumeration values. -/
def parsePhase (j : Json) : Option FlightPhase :=
  match j with
  | .str s => phaseOfString s
  | _ => none

/-- `TelemetryPacketSchema.parse`: validate an inbound JSON value against
the wire schema and build the typed packet from its schema fields (zod's
default `z.object` behaviour: unknown keys are not part of the output). -/
def parseTelemetryPacket (j : Json) : Option TelemetryPacket := do
  let timestamp ← numField j "timestamp"
  let imu ← (getField j "imu").bind parseIMUSchema
  let gps ← (getField j "gps").bind parseGPSSchema
  let baro ← (getField j "baro").bind parseBaroSchema
  let velocity ← (getField j "velocity").bind parseVec3Schema
  let phase ← (getField j "phase").bind parsePhase
  let battery ← numField j "battery"
  let rssi ← numField j "rssi"
  some ⟨timestamp, ⟨imu.accel, imu.gyro, imu.mag⟩, gps, baro, velocity, phase, battery, rssi⟩

/-- Canonical wire encoding of a 3-axis vector. -/
def vec3Json (v : Vec3) : Json :=
  .obj [("x", .num v.x), ("y", .num v.y), ("z", .num v.z)]

/-- Canonical wire encoding of a telemetry packet: exactly the schema
fields, in schema order.  This is also the shape of the object that
`TelemetryPacketSchema.parse` returns on success. -/
def wireJson (p : TelemetryPacket) : Json :=
  .obj
    [("timestamp", .num p.timestamp),
     ("imu", .obj
        [("accel", vec3Json p.imu.accel),
         ("gyro", vec3Json p.imu.gyro),
         ("mag", vec3Json p.imu.mag)]),
     ("gps", .obj
        [("lat", .num p.gps.lat), ("lon", .num p.gps.lon),
         ("alt", .num p.gps.alt), ("heading", .num p.gps.heading)]),
     ("baro", .obj
        [("pressure", .num p.baro.pressure), ("altitude", .num p.baro.altitude)]),
     ("velocity", vec3Json p.velocity),
     ("phase", .str (phaseToString p.phase)),
     ("battery", .num p.battery),
     ("rssi", .num p.rssi)]

/-- Modelled from the spec (§3, §4.1, §6): a raw value is well-formed when
every required field of the wire schema is present with numeric type and
`phase` is one of the seven enumeration strings. -/
def hasNumField (j : Json) (k : String) : Prop :=
  ∃ q : ℚ, getField j k = some (.num q)

/-- Modelled from the spec: a well-formed 3-axis vector value. -/
def specVec3Shaped (j : Json) : Prop :=
  hasNumField j "x" ∧ hasNumField j "y" ∧ hasNumField j "z"

/-- Modelled from the spec (§4.1 with the §3/§6 field list): presence and
numeric type of every required field, and `phase` among the enum values. -/
def specWellFormedPacket (j : Json) : Prop :=
  hasNumField j "timestamp" ∧
  (∃ imu, getField j "imu" = some imu ∧
    (∃ a, getField imu "accel" = some a ∧ specVec3Shaped a) ∧
    (∃ g, getField imu "gyro" = some g ∧ specVec3Shaped g) ∧
    (∃ m, getField imu "mag" = some m ∧ specVec3Shaped m)) ∧
  (∃ gps, getField j "gps" = some gps ∧
    hasNumField gps "lat" ∧ hasNumField gps "lon" ∧
    hasNumField gps "alt" ∧ hasNumField gps "heading") ∧
  (∃ baro, getField j "baro" = some baro ∧
    hasNumField baro "pressure" ∧ hasNumField baro "altitude") ∧
  (∃ v, getField j "velocity" = some v ∧ specVec3Shaped v) ∧
  (∃ s, getField j "phase" = some (.str s) ∧ s ∈ phaseStrings) ∧
  hasNumField j "battery" ∧
  hasNumField j "rssi"

theorem isSome_bind {α β : Type} (o : Option α) (f : α → Option β) :
    (o.bind f).isSome ↔ ∃ a, o = some a ∧ (f a).isSome := by
  cases o <;> simp

theorem numField_isSome (j : Json) (k : String) :
    (numField j k).isSome ↔ hasNumField j k := by
  unfold numField hasNumField
  cases hg : getField j k with
  | none => simp
  | some v => cases v <;> simp [asNum]

theorem parseVec3Schema_isSome (j : Json) :
    (parseVec3Schema j).isSome ↔ specVec3Shaped j := by
  unfold parseVec3Schema specVec3Shaped
  rw [← numField_isSome, ← numField_isSome, ← numField_isSome]
  cases hx : numField j "x" <;> cases hy : numField j "y" <;>
    cases hz : numField j "z" <;> simp [hx, hy, hz, Option.bind]

theorem specVec3Shaped_iff (j : Json) :
    specVec3Shaped j ↔ ∃ v, parseVec3Schema j = some v := by
  rw [← parseVec3Schema_isSome, Option.isSome_iff_exists]

theorem parseIMUSchema_isSome (j : Json) :
    (parseIMUSchema j).isSome ↔
      (∃ a, getField j "accel" = some a ∧ specVec3Shaped a) ∧
      (∃ g, getField j "gyro" = some g ∧ specVec3Shaped g) ∧
      (∃ m, getField j "mag" = some m ∧ specVec3Shaped m) := by
  simp only [specVec3Shaped_iff]
  unfold parseIMUSchema
  simp only [Option.isSome_iff_exists, bind, Option.bind_eq_bind, Option.bind_eq_some]
  constructor
  · rintro ⟨x, ⟨a, ⟨ja, hja, hpa⟩, ⟨g, ⟨jg, hjg, hpg⟩, ⟨m, ⟨jm, hjm, hpm⟩, hx⟩⟩⟩⟩
    exact ⟨⟨ja, hja, a, hpa⟩, ⟨jg, hjg, g, hpg⟩, ⟨jm, hjm, m, hpm⟩⟩
  · rintro ⟨⟨ja, hja, a, hpa⟩, ⟨jg, hjg, g, hpg⟩, ⟨jm, hjm, m, hpm⟩⟩
    exact ⟨⟨a, g, m⟩, ⟨a, ⟨ja, hja, hpa⟩, ⟨g, ⟨jg, hjg, hpg⟩, ⟨m, ⟨jm, hjm, hpm⟩, rfl⟩⟩⟩⟩

theorem parseGPSSchema_isSome (j : Json) :
    (parseGPSSchema j).isSome ↔
      hasNumField j "lat" ∧ hasNumField j "lon" ∧
      hasNumField j "alt" ∧ hasNumField j "heading" := by
  unfold parseGPSSchema
  rw [← numField_isSome, ← numField_isSome, ← numField_isSome, ← numField_isSome]
  cases h1 : numField j "lat" <;> cases h2 : numField j "lon" <;>
    cases h3 : numField j "alt" <;> cases h4 : numField j "heading" <;>
    simp [h1, h2, h3, h4, Option.bind]

theorem parseBaroSchema_isSome (j : Json) :
    (parseBaroSchema j).isSome ↔
      hasNumField j "pressure" ∧ hasNumField j "altitude" := by
  unfold parseBaroSchema
  rw [← numField_isSome, ← numField_isSome]
  cases h1 : numField j "pressure" <;> cases h2 : numField j "altitude" <;>
    simp [h1, h2, Option.bind]

theorem parsePhase_isSome (j : Json) :
    (parsePhase j).isSome ↔ ∃ s, j = .str s ∧ s ∈ phaseStrings := by
  cases j with
  | str s =>
    simp only [parsePhase]
    unfold phaseOfString
    split_ifs with h1 h2 h3 h4 h5 h6 h7 <;>
      simp_all [phaseStrings]
  | num q => simp [parsePhase, phaseStrings]
  | bool b => simp [parsePhase, phaseStrings]
  | null => simp [parsePhase, phaseStrings]
  | arr xs => simp [parsePhase, phaseStrings]
  | obj kvs => simp [parsePhase, phaseStrings]

theorem specIMU_iff (j : Json) :
    ((∃ a, getField j "accel" = some a ∧ ∃ v, parseVec3Schema a = some v) ∧
     (∃ g, getField j "gyro" = some g ∧ ∃ v, parseVec3Schema g = some v) ∧
     (∃ m, getField j "mag" = some m ∧ ∃ v, parseVec3Schema m = some v)) ↔
      ∃ v, parseIMUSchema j = some v := by
  rw [← Option.isSome_iff_exists, parseIMUSchema_isSome]
  simp only [specVec3Shaped_iff]

theorem specGPS_iff (j : Json) :
    (hasNumField j "lat" ∧ hasNumField j "lon" ∧
     hasNumField j "alt" ∧ hasNumField j "heading") ↔
      ∃ v, parseGPSSchema j = some v := by
  rw [← parseGPSSchema_isSome, Option.isSome_iff_exists]

theorem specBaro_iff (j : Json) :
    (hasNumField j "pressure" ∧ hasNumField j "altitude") ↔
      ∃ v, parseBaroSchema j = some v := by
  rw [← parseBaroSchema_isSome, Option.isSome_iff_exists]

theorem specPhase_iff (j : Json) :
    (∃ s, j = .str s ∧ s ∈ phaseStrings) ↔ ∃ v, parsePhase j = some v := by
  rw [← parsePhase_isSome, Option.isSome_iff_exists]

theorem parseTelemetryPacket_isSome (j : Json) :
    (parseTelemetryPacket j).isSome ↔ specWellFormedPacket j := by
  unfold specWellFormedPacket
  simp only [specVec3Shaped_iff, specIMU_iff, specGPS_iff, specBaro_iff]
  have hphase : (∃ s, getField j "phase" = some (.str s) ∧ s ∈ phaseStrings) ↔
      ∃ pj, getField j "phase" = some pj ∧ ∃ v, parsePhase pj = some v := by
    constructor
    · rintro ⟨s, hs, hmem⟩
      exact ⟨.str s, hs, (specPhase_iff _).1 ⟨s, rfl, hmem⟩⟩
    · rintro ⟨pj, hpj, v, hv⟩
      obtain ⟨s, rfl, hmem⟩ := (parsePhase_isSome pj).1 (by simp [hv])
      exact ⟨s, hpj, hmem⟩
  rw [hphase, ← numField_isSome, ← numField_isSome, ← numField_isSome]
  unfold parseTelemetryPacket
  simp only [Option.isSome_iff_exists, bind, Option.bind_eq_bind, Option.bind_eq_some]
  constructor
  · rintro ⟨x, ts, hts, imu, ⟨ji, hji, hpi⟩, gps, ⟨jg, hjg, hpg⟩,
      baro, ⟨jb, hjb, hpb⟩, vel, ⟨jv, hjv, hpv⟩, ph, ⟨jp, hjp, hpp⟩,
      bat, hbat, rs, hrs, hx⟩
    exact ⟨⟨ts, hts⟩, ⟨ji, hji, imu, hpi⟩, ⟨jg, hjg, gps, hpg⟩,
      ⟨jb, hjb, baro, hpb⟩, ⟨jv, hjv, vel, hpv⟩, ⟨jp, hjp, ph, hpp⟩,
      ⟨bat, hbat⟩, ⟨rs, hrs⟩⟩
  · rintro ⟨⟨ts, hts⟩, ⟨ji, hji, imu, hpi⟩, ⟨jg, hjg, gps, hpg⟩,
      ⟨jb, hjb, baro, hpb⟩, ⟨jv, hjv, vel, hpv⟩, ⟨jp, hjp, ph, hpp⟩,
      ⟨bat, hbat⟩, ⟨rs, hrs⟩⟩
    exact ⟨⟨ts, ⟨imu.accel, imu.gyro, imu.mag⟩, gps, baro, vel, ph, bat, rs⟩,
      ts, hts, imu, ⟨ji, hji, hpi⟩, gps, ⟨jg, hjg, hpg⟩,
      baro, ⟨jb, hjb, hpb⟩, vel, ⟨jv, hjv, hpv⟩, ph, ⟨jp, hjp, hpp⟩,
      bat, hbat, rs, hrs, rfl⟩

theorem parse_wireJson (p : TelemetryPacket) :
    parseTelemetryPacket (wireJson p) = some p := by
  obtain ⟨ts, ⟨ac, gy, mg⟩, gps, baro, vel, ph, bat, rs⟩ := p
  cases ph <;> rfl

/-- A raw inbound value that carries every schema field (those of
`idxPacket 0`) plus one extra unknown field. -/
def jExtra : Json :=
  match wireJson (idxPacket 0) with
  | .obj kvs => .obj (kvs ++ [("extra", Json.num 1)])
  | j => j

/-- A raw inbound value shaped like a packet but whose `phase` is outside
the seven-value enumeration. -/
def jBadPhase : Json :=
  match wireJson (idxPacket 0) with
  | .obj kvs =>
      .obj (kvs.map fun kv => if kv.1 = "phase" then ("phase", Json.str "flying") else kv)
  | j => j

/-! ## Connection manager (`useTelemetryWebSocket`, lines 35–134) -/

/-- The connection-side mutable state of the hook: the `enabled` prop, the
socket handle (`wsRef`, `true` when a transport is open), the pending retry
timer with its delay (`retryTimeoutRef`), and `retryCount`. -/
structure ConnState where
  enabled : Bool
  sockOpen : Bool
  retryTimeoutPending : Option ℕ
  retryCount : ℕ
deriving DecidableEq, Repr

/-- `ws.onopen` (lines 49–57): mark connected, reset the retry counter,
log a success message. -/
def wsOnOpen (url : String) (now : ℕ) (c : ConnState) (s : StoreState) :
    ConnState × StoreState :=
  ({ c with sockOpen := true, retryCount := 0 },
   addLog
     { type := .success
       message := "Connected to WebSocket: " ++ url
       timestamp := now }
     { s with isConnected := true })

/-- `ws.onmessage` (lines 59–71): validate the frame; on success forward
the packet to the store, on failure append one error log entry.  The
handler never touches the socket or the connection state. -/
noncomputable def wsOnMessage (now : ℕ) (raw : Json) (s : StoreState) : StoreState :=
  match parseTelemetryPacket raw with
  | some p => addTelemetryPacket p s
  | none =>
      addLog
        { type := .error
          message := "Invalid telemetry packet"
          timestamp := now } s

/-- `ws.onclose` (lines 73–89): mark disconnected; while `enabled` and the
retry counter is below 5, compute the backoff delay, log a warning stating
it and schedule the reconnect timer. -/
def wsOnClose (now : ℕ) (c : ConnState) (s : StoreState) : ConnState × StoreState :=
  let c := { c with sockOpen := false }
  let s := setConnected false now s
  if c.enabled = true ∧ c.retryCount < 5 then
    let delay := min (1000 * 2 ^ c.retryCount) 30000
    ({ c with retryTimeoutPending := some delay },
     addLog
       { type := .warning
         message := "Connection lost. Retrying in " ++ toString delay ++ "ms..."
         timestamp := now } s)
  else (c, s)

/-- Firing of the scheduled retry timer (lines 84–87): bump the counter and
clear the timer (the subsequent `connect()` call is a separate step). -/
def retryTimerFire (c : ConnState) : ConnState :=
  { c with retryCount := c.retryCount + 1, retryTimeoutPending := none }

/-- `disconnect()` (lines 107–119): cancel any pending retry timer, close
the transport handle if one is open, and clear the connected flag.  The
retry counter is not touched. -/
def disconnectConn (now : ℕ) (c : ConnState) (s : StoreState) : ConnState × StoreState :=
  ({ c with retryTimeoutPending := none, sockOpen := false },
   setConnected false now s)

theorem addLog_getLast (e : LogEntry) (s : StoreState) :
    (addLog e s).logs.getLast? = some e := by
  unfold addLog
  rcases hlt : s.logs with _ | ⟨x, xs⟩
  · simp
  · by_cases hc : 1000 < (x :: xs ++ [e]).length
    · simp only [if_pos hc]
      simp only [List.cons_append, List.tail_cons]
      rw [List.getLast?_append_cons]
      rfl
    · simp only [if_neg hc]
      rw [show x :: xs ++ [e] = (x :: xs) ++ [e] from rfl, List.getLast?_append_cons]
      rfl

theorem addLog_frame (e : LogEntry) (s : StoreState) :
    (addLog e s).currentPacket = s.currentPacket ∧
    (addLog e s).history = s.history ∧
    (addLog e s).sessionMaxima = s.sessionMaxima ∧
    (addLog e s).isConnected = s.isConnected ∧
    (addLog e s).isSimulating = s.isSimulating := by
  unfold addLog
  exact ⟨rfl, rfl, rfl, rfl, rfl⟩

/-- C8 (amended): validation succeeds exactly when every required schema
field is present with numeric type and `phase` is one of the seven enum
values; on success the schema-field values are forwarded without coercion
or normalization, so a raw input consisting of exactly the schema fields is
returned unchanged — but unknown extra fields are stripped (zod's default
`z.object` behaviour), so the output is not always literally the raw
input. -/
theorem spec_validator_success_iff :
    (∀ j : Json, (parseTelemetryPacket j).isSome ↔ specWellFormedPacket j) ∧
    (∀ p : TelemetryPacket, parseTelemetryPacket (wireJson p) = some p) :=
  ⟨parseTelemetryPacket_isSome, parse_wireJson⟩

/-- C8 counterexample: a raw value carrying one extra unknown field
validates successfully, yet the packet forwarded to the store is not the
raw input unchanged — the extra field has been stripped. -/
theorem spec_validator_not_identity_counterexample :
    parseTelemetryPacket jExtra = some (idxPacket 0) ∧
    wireJson (idxPacket 0) ≠ jExtra := by
  constructor
  · rfl
  · intro h
    have h2 := congrArg
      (fun j => match j with | Json.obj kvs => kvs.length | _ => 0) h
    simp [wireJson, jExtra, idxPacket, vec3Json] at h2

/-- The log entry the message handler appends on a validation failure. -/
def invalidPacketLog (now : ℕ) : LogEntry :=
  { type := .error, message := "Invalid telemetry packet", timestamp := now }

/-- C6: a malformed inbound message (the validator rejects it) appends
exactly one error log entry at the end of the log trail and leaves
`currentPacket`, `history`, `sessionMaxima` and the connection flag
unchanged; the handler (`ws.onmessage`) never closes the socket. -/
theorem spec_malformed_message_one_error_log
    (now : ℕ) (raw : Json) (s : StoreState)
    (h : parseTelemetryPacket raw = none) :
    (wsOnMessage now raw s).logs.getLast? = some (invalidPacketLog now) ∧
    (s.logs.length < 1000 →
      (wsOnMessage now raw s).logs = s.logs ++ [invalidPacketLog now]) ∧
    (wsOnMessage now raw s).currentPacket = s.currentPacket ∧
    (wsOnMessage now raw s).history = s.history ∧
    (wsOnMessage now raw s).sessionMaxima = s.sessionMaxima ∧
    (wsOnMessage now raw s).isConnected = s.isConnected := by
  have hw : wsOnMessage now raw s = addLog (invalidPacketLog now) s := by
    unfold wsOnMessage
    rw [h]
    rfl
  rw [hw]
  refine ⟨addLog_getLast _ _, fun hlen => ?_, (addLog_frame _ _).1, (addLog_frame _ _).2.1,
    (addLog_frame _ _).2.2.1, (addLog_frame _ _).2.2.2.1⟩
  unfold addLog
  have hno : ¬ 1000 < (s.logs ++ [invalidPacketLog now]).length := by
    simp only [List.length_append, List.length_cons, List.length_nil]
    omega
  simp only [if_neg hno]

/-- C6 witness: the concrete packet-shaped value whose `phase` is the
string `"flying"` (outside the enumeration) is rejected, and feeding it to
the message handler on the initial store appends exactly the one error log
entry and changes nothing else. -/
theorem spec_malformed_message_one_error_log_witness :
    parseTelemetryPacket jBadPhase = none ∧
    ((wsOnMessage 7 jBadPhase initialStore).logs.getLast? = some (invalidPacketLog 7) ∧
    (initialStore.logs.length < 1000 →
      (wsOnMessage 7 jBadPhase initialStore).logs =
        initialStore.logs ++ [invalidPacketLog 7]) ∧
    (wsOnMessage 7 jBadPhase initialStore).currentPacket = initialStore.currentPacket ∧
    (wsOnMessage 7 jBadPhase initialStore).history = initialStore.history ∧
    (wsOnMessage 7 jBadPhase initialStore).sessionMaxima = initialStore.sessionMaxima ∧
    (wsOnMessage 7 jBadPhase initialStore).isConnected = initialStore.isConnected) :=
  ⟨rfl, spec_malformed_message_one_error_log 7 jBadPhase initialStore rfl⟩

/-- The warning entry `ws.onclose` logs before scheduling a retry. -/
def retryWarningLog (delay now : ℕ) : LogEntry :=
  { type := .warning
    message := "Connection lost. Retrying in " ++ toString delay ++ "ms..."
    timestamp := now }

/-- C4 (amended): while `enabled` and the retry counter is below the cap 5,
a transport close schedules a reconnect after
`min(1000 * 2^retryCount, 30000) = 1000 * 2^retryCount` milliseconds and
announces that delay in a warning log; the resulting delays for attempts
0–4 are `1000, 2000, 4000, 8000, 16000` (the 30000 cap is never reached);
once the counter has reached 5 a close schedules no further retry, so only
a manual `connect()` resumes. -/
theorem spec_retry_backoff (c : ConnState) (s : StoreState) (now : ℕ)
    (hen : c.enabled = true) :
    (c.retryCount < 5 →
      (wsOnClose now c s).1.retryTimeoutPending = some (1000 * 2 ^ c.retryCount) ∧
      min (1000 * 2 ^ c.retryCount) 30000 = 1000 * 2 ^ c.retryCount ∧
      (wsOnClose now c s).2.logs.getLast? =
        some (retryWarningLog (1000 * 2 ^ c.retryCount) now)) ∧
    (5 ≤ c.retryCount →
      (wsOnClose now c s).1 = { c with sockOpen := false } ∧
      (wsOnClose now c s).2 = setConnected false now s) ∧
    (List.range 5).map (fun n => min (1000 * 2 ^ n) 30000) =
      [1000, 2000, 4000, 8000, 16000] := by
  have hmin : ∀ n : ℕ, n < 5 → min (1000 * 2 ^ n) 30000 = 1000 * 2 ^ n := by
    intro n hn
    have h2 : 2 ^ n ≤ 2 ^ 4 := Nat.pow_le_pow_right (by norm_num) (by omega)
    have : 1000 * 2 ^ n ≤ 30000 := by
      have : (2 : ℕ) ^ 4 = 16 := by norm_num
      omega
    omega
  refine ⟨fun hlt => ?_, fun hge => ?_, by decide⟩
  · have hcond : ({ c with sockOpen := false } : ConnState).enabled = true ∧
        ({ c with sockOpen := false } : ConnState).retryCount < 5 := ⟨hen, hlt⟩
    unfold wsOnClose
    simp only [if_pos hcond]
    refine ⟨by rw [hmin _ hlt], hmin _ hlt, ?_⟩
    rw [hmin _ hlt]
    exact addLog_getLast _ _
  · have hcond : ¬ (({ c with sockOpen := false } : ConnState).enabled = true ∧
        ({ c with sockOpen := false } : ConnState).retryCount < 5) := by
      intro hc
      have h2 : c.retryCount < 5 := hc.2
      omega
    unfold wsOnClose
    simp only [if_neg hcond]
    constructor <;> trivial

/-- C4 witness: on a concrete enabled connection with `retryCount = 3`, a
close schedules the retry after `8000` ms and logs the warning stating it;
the table of delays for attempts 0–4 is as listed. -/
theorem spec_retry_backoff_witness :
    (⟨true, true, none, 3⟩ : ConnState).enabled = true ∧
    ((3 < 5 →
      (wsOnClose 11 ⟨true, true, none, 3⟩ initialStore).1.retryTimeoutPending =
        some (1000 * 2 ^ 3) ∧
      min (1000 * 2 ^ 3) 30000 = 1000 * 2 ^ 3 ∧
      (wsOnClose 11 ⟨true, true, none, 3⟩ initialStore).2.logs.getLast? =
        some (retryWarningLog (1000 * 2 ^ 3) 11)) ∧
    (5 ≤ 3 →
      (wsOnClose 11 ⟨true, true, none, 3⟩ initialStore).1 =
        { (⟨true, true, none, 3⟩ : ConnState) with sockOpen := false } ∧
      (wsOnClose 11 ⟨true, true, none, 3⟩ initialStore).2 =
        setConnected false 11 initialStore) ∧
    (List.range 5).map (fun n => min (1000 * 2 ^ n) 30000) =
      [1000, 2000, 4000, 8000, 16000]) :=
  ⟨rfl, spec_retry_backoff ⟨true, true, none, 3⟩ initialStore 11 rfl⟩

/-- C4 counterexample: the claim as stated says attempt number 5 (and
beyond) is announced and scheduled with delay `min(1000*2^5, 30000) =
30000` ms; in the code, a close with `retryCount = 5` on an enabled
connection schedules no retry at all and logs no warning beyond the
disconnect notice, because the guard is `retryCount < 5`. -/
theorem spec_retry_backoff_counterexample :
    (wsOnClose 11 ⟨true, true, none, 5⟩ initialStore).1.retryTimeoutPending = none ∧
    (wsOnClose 11 ⟨true, true, none, 5⟩ initialStore).1.retryTimeoutPending ≠ some 30000 ∧
    (wsOnClose 11 ⟨true, true, none, 5⟩ initialStore).2.logs =
      (setConnected false 11 initialStore).logs := by
  have hnone :
      (wsOnClose 11 ⟨true, true, none, 5⟩ initialStore).1.retryTimeoutPending = none := rfl
  refine ⟨hnone, by rw [hnone]; simp, rfl⟩

/-- C5 (amended): `disconnect()` in any connection state cancels any
pending retry timer, closes the transport handle and clears the connected
flag, but leaves the retry counter unchanged (it is reset to 0 only by a
successful `onopen`). -/
theorem spec_disconnect_effects (c : ConnState) (s : StoreState) (now : ℕ) :
    (disconnectConn now c s).1.retryTimeoutPending = none ∧
    (disconnectConn now c s).1.sockOpen = false ∧
    (disconnectConn now c s).2.isConnected = false ∧
    (disconnectConn now c s).1.retryCount = c.retryCount ∧
    (disconnectConn now c s).1.enabled = c.enabled ∧
    (wsOnOpen "ws://localhost:8080/telemetry" now c s).1.retryCount = 0 := by
  refine ⟨rfl, rfl, ?_, rfl, rfl, rfl⟩
  unfold disconnectConn setConnected
  exact (addLog_frame _ _).2.2.2.1

/-- C5 counterexample: `disconnect()` on a connection whose retry counter
is 3 leaves the counter at 3 — it is not reset to 0 as the claim states. -/
theorem spec_disconnect_counterexample :
    (disconnectConn 11 ⟨true, true, some 8000, 3⟩ initialStore).1.retryCount = 3 ∧
    (disconnectConn 11 ⟨true, true, some 8000, 3⟩ initialStore).1.retryCount ≠ 0 := by
  have h3 : (disconnectConn 11 ⟨true, true, some 8000, 3⟩ initialStore).1.retryCount = 3 := rfl
  exact ⟨h3, by rw [h3]; simp⟩

/-! ## Flight simulator, canonical variant
(`useTelemetrySimulation`, third document of `useTelemetryWebSocket.ts`,
lines 358–584: accelerations from the previous phase, then integrate,
then decide the new phase with prioritized checks) -/

/-- `Math.sign`. -/
def signQ (q : ℚ) : ℚ :=
  if 0 < q then 1 else if q < 0 then -1 else 0

/-- The simulator's mutable state: vehicle state `{x,y,z,vx,vy,vz}` in the
local ENU frame, the current phase (`flightPhaseRef`), the one-shot apogee
latch (`apogeeReachedRef`), the landed one-shot (`landedRef`), whether the
post-landing stop timeout has been scheduled, and the clock bookkeeping
(`t0Ref`, `lastTickRef`, in ms; `t0 = 0` means not yet started). -/
structure SimState where
  x : ℚ
  y : ℚ
  z : ℚ
  vx : ℚ
  vy : ℚ
  vz : ℚ
  phase : FlightPhase
  apogeeReached : Bool
  landedFlag : Bool
  stopScheduled : Bool
  t0 : ℕ
  last : ℕ
deriving Repr

/-- The state `startSimulation()` resets to (lines 553–563). -/
def initSimState : SimState :=
  ⟨0, 0, 0, 0, 0, 0, .preFlight, false, false, false, 0, 0⟩

/-- Physics of one tick (lines 403–454): accelerations governed by the
previous phase (gravity, thrust, quadratic drag, parachute relaxation,
wind), semi-implicit Euler integration, ground clamp.  Phase and latch are
untouched here. -/
def integrateV2 (dt : ℚ) (st : SimState) : SimState :=
  let p := st.phase
  let sz := if p = .landed then 0 else st.z
  let svx := if p = .landed then 0 else st.vx
  let svy := if p = .landed then 0 else st.vy
  let svz := if p = .landed then 0 else st.vz
  let G : ℚ := 981/100
  let K : ℚ := 6/100000
  let az : ℚ :=
    if p = .poweredAscent then -G + 132
    else if p = .burnout ∨ p = .apogee then -G - signQ svz * K * (|svz| * |svz|)
    else if p = .drogueDeploy then -G + (-40 - svz) * (1/2)
    else if p = .mainDeploy then -G + (-7 - svz) * (9/10)
    else if p = .landed then 0
    else -G
  let ax : ℚ :=
    if p = .poweredAscent then (3/10) * (1/10)
    else if p = .burnout ∨ p = .apogee ∨ p = .drogueDeploy ∨ p = .mainDeploy then
      3/10 - signQ svx * K * (1/2) * (|svx| * |svx|)
    else if p = .landed then 0
    else 3/10
  let ay : ℚ :=
    if p = .poweredAscent then 0
    else if p = .burnout ∨ p = .apogee ∨ p = .drogueDeploy ∨ p = .mainDeploy then
      0 - signQ svy * K * (1/2) * (|svy| * |svy|)
    else 0
  let vx1 := svx + ax * dt
  let vy1 := svy + ay * dt
  let vz1 := svz + az * dt
  let x1 := st.x + vx1 * dt
  let y1 := st.y + vy1 * dt
  let z1 := sz + vz1 * dt
  let z2 := if z1 < 0 then 0 else z1
  let vz2 := if z1 < 0 then 0 else vz1
  { st with x := x1, y := y1, z := z2, vx := vx1, vy := vy1, vz := vz2 }

/-- Phase decision from the updated state and elapsed time
(lines 456–480), returning the new phase and the updated apogee latch. -/
def decidePhaseV2 (t z vz : ℚ) (latch : Bool) : FlightPhase × Bool :=
  if t < 2 then (.preFlight, latch)
  else if t < 2 + 8/5 then (.poweredAscent, latch)
  else if z ≤ 5 ∧ |vz| < 2 then (.landed, latch)
  else if latch = false ∧ vz ≤ 0 then (.apogee, true)
  else if latch = true ∧ vz < 0 then
    if 600 < z then (.burnout, latch)
    else if 150 < z then (.drogueDeploy, latch)
    else (.mainDeploy, latch)
  else (.burnout, latch)

/-- `dt` of a tick (line 397): wall-clock gap in seconds, clamped to 50 ms. -/
def simDt (now : ℕ) (st : SimState) : ℚ :=
  min (1/20) (((now : ℚ) - (st.last : ℚ)) / 1000)

/-- Elapsed flight time `t` of a tick (line 399), in seconds. -/
def simT (now : ℕ) (st : SimState) : ℚ :=
  ((now : ℚ) - (st.t0 : ℚ)) / 1000

/-- The phase decision a tick at time `now` makes: `decidePhaseV2` applied
to the elapsed time and the freshly integrated state (lines 456–480). -/
def simDecideV2 (now : ℕ) (st : SimState) : FlightPhase × Bool :=
  decidePhaseV2 (simT now st) (integrateV2 (simDt now st) st).z
    (integrateV2 (simDt now st) st).vz st.apogeeReached

/-- The simulator state after the physics and the phase decision of one
tick (before the emission bookkeeping). -/
def simPostV2 (now : ℕ) (st : SimState) : SimState :=
  { integrateV2 (simDt now st) st with
    phase := (simDecideV2 now st).1
    apogeeReached := (simDecideV2 now st).2
    last := now }

/-- One call of `stepSimulation` (lines 390–551) at wall-clock time `now`
(ms): the first call only records `t0`; afterwards, clamp `dt`, integrate,
decide the phase, and emit one packet carrying the new phase — except that
once the first `landed` packet has been pushed (`landedRef`) nothing is
emitted any more, and reaching `landed` for the first time also schedules
the stop timeout (lines 534–548).  Sensor synthesis (`Math.random()`
noise) affects only packet fields that no claim depends on; the emitted
packet is represented by the phase it carries. -/
def stepSimV2 (now : ℕ) (st : SimState) : SimState × Option FlightPhase :=
  if st.t0 = 0 then ({ st with t0 := now, last := now }, none)
  else if (simDecideV2 now st).1 = .landed then
    if st.landedFlag = false then
      ({ simPostV2 now st with landedFlag := true, stopScheduled := true }, some .landed)
    else (simPostV2 now st, none)
  else (simPostV2 now st, some (simDecideV2 now st).1)

/-- Run a whole session: one `stepSimulation` call per tick time, collecting
the phases of the emitted packets in order. -/
def runSimV2 : SimState → List ℕ → SimState × List FlightPhase
  | st, [] => (st, [])
  | st, now :: rest =>
      let s1 := stepSimV2 now st
      let sr := runSimV2 s1.1 rest
      (sr.1, s1.2.toList ++ sr.2)

/-- The phases carried by the packets a session emits, oldest first. -/
def emittedV2 (times : List ℕ) : List FlightPhase :=
  (runSimV2 initSimState times).2

/-- The post-landing stop timeout callback (lines 538–545): clear the tick
interval, then `setSimulating(false)` and `setConnected(false)`. -/
def simStopCallback (now : ℕ) (s : StoreState) : Bool × StoreState :=
  (false, setConnected false now (setSimulating false now s))

/-- Elapsed session time (seconds) recorded in a post-start state. -/
def tAt (st : SimState) : ℚ :=
  ((st.last : ℚ) - (st.t0 : ℚ)) / 1000

/-- The allowed transitions between the phases of successively emitted
packets: forward along the nominal order, plus the one backward re-entry
of `burnout` from `apogee` right after the apogee latch is set. -/
def amendedAllowed (p q : FlightPhase) : Prop :=
  p.rank ≤ q.rank ∨ (p = .apogee ∧ q = .burnout)

/-- Invariant of reachable post-start states of the canonical simulator. -/
structure SimInv (st : SimState) : Prop where
  t0pos : 0 < st.t0
  lastGe : st.t0 ≤ st.last
  zNonneg : 0 ≤ st.z
  poweredT : st.phase = .poweredAscent → 2 ≤ tAt st
  postT : 2 ≤ st.phase.rank → 2 + 8/5 ≤ tAt st
  apogeeLatch : st.phase = .apogee ∨ st.phase = .drogueDeploy ∨ st.phase = .mainDeploy →
    st.apogeeReached = true
  drogueState : st.phase = .drogueDeploy → st.vz < 0 ∧ st.z ≤ 600
  mainState : st.phase = .mainDeploy → st.vz < 0 ∧ st.z ≤ 150
  flagPhase : st.landedFlag = true → st.phase = .landed
  phaseFlag : st.phase = .landed → st.landedFlag = true
  flagStop : st.landedFlag = true → st.stopScheduled = true

theorem integrateV2_z_nonneg (st : SimState) (dt : ℚ) :
    0 ≤ (integrateV2 dt st).z := by
  cases hp : st.phase <;>
    (simp [integrateV2, hp]
     try split <;> try linarith)

theorem integrateV2_drogue (st : SimState) (dt : ℚ)
    (hp : st.phase = .drogueDeploy) (hvz : st.vz < 0) (hz : 0 ≤ st.z)
    (hdt0 : 0 ≤ dt) (hdt1 : dt ≤ 1/20) :
    ((integrateV2 dt st).z = 0 ∧ (integrateV2 dt st).vz = 0) ∨
    ((integrateV2 dt st).vz < 0 ∧ (integrateV2 dt st).z ≤ st.z) := by
  have hproj : (integrateV2 dt st).vz =
      (if st.z + (st.vz + (-(981/100) + (-40 - st.vz) * (1/2)) * dt) * dt < 0 then 0
       else st.vz + (-(981/100) + (-40 - st.vz) * (1/2)) * dt) ∧
      (integrateV2 dt st).z =
      (if st.z + (st.vz + (-(981/100) + (-40 - st.vz) * (1/2)) * dt) * dt < 0 then 0
       else st.z + (st.vz + (-(981/100) + (-40 - st.vz) * (1/2)) * dt) * dt) := by
    constructor <;> simp [integrateV2, hp]
  obtain ⟨hv, hzz⟩ := hproj
  have hvz1 : st.vz + (-(981/100) + (-40 - st.vz) * (1/2)) * dt < 0 := by nlinarith
  by_cases hcl : st.z + (st.vz + (-(981/100) + (-40 - st.vz) * (1/2)) * dt) * dt < 0
  · left
    rw [hv, hzz, if_pos hcl, if_pos hcl]
    exact ⟨rfl, rfl⟩
  · right
    rw [hv, hzz, if_neg hcl, if_neg hcl]
    constructor
    · exact hvz1
    · nlinarith

theorem integrateV2_main (st : SimState) (dt : ℚ)
    (hp : st.phase = .mainDeploy) (hvz : st.vz < 0) (hz : 0 ≤ st.z)
    (hdt0 : 0 ≤ dt) (hdt1 : dt ≤ 1/20) :
    ((integrateV2 dt st).z = 0 ∧ (integrateV2 dt st).vz = 0) ∨
    ((integrateV2 dt st).vz < 0 ∧ (integrateV2 dt st).z ≤ st.z) := by
  have hproj : (integrateV2 dt st).vz =
      (if st.z + (st.vz + (-(981/100) + (-7 - st.vz) * (9/10)) * dt) * dt < 0 then 0
       else st.vz + (-(981/100) + (-7 - st.vz) * (9/10)) * dt) ∧
      (integrateV2 dt st).z =
      (if st.z + (st.vz + (-(981/100) + (-7 - st.vz) * (9/10)) * dt) * dt < 0 then 0
       else st.z + (st.vz + (-(981/100) + (-7 - st.vz) * (9/10)) * dt) * dt) := by
    constructor <;> simp [integrateV2, hp]
  obtain ⟨hv, hzz⟩ := hproj
  have hvz1 : st.vz + (-(981/100) + (-7 - st.vz) * (9/10)) * dt < 0 := by nlinarith
  by_cases hcl : st.z + (st.vz + (-(981/100) + (-7 - st.vz) * (9/10)) * dt) * dt < 0
  · left
    rw [hv, hzz, if_pos hcl, if_pos hcl]
    exact ⟨rfl, rfl⟩
  · right
    rw [hv, hzz, if_neg hcl, if_neg hcl]
    constructor
    · exact hvz1
    · nlinarith

theorem integrateV2_landed (st : SimState) (dt : ℚ) (hp : st.phase = .landed) :
    (integrateV2 dt st).z = 0 ∧ (integrateV2 dt st).vz = 0 := by
  constructor <;> simp [integrateV2, hp]

theorem decidePhaseV2_rank_one (t z vz : ℚ) (l : Bool) (ht : ¬ t < 2) :
    1 ≤ (decidePhaseV2 t z vz l).1.rank := by
  unfold decidePhaseV2
  rw [if_neg ht]
  split_ifs <;> simp [FlightPhase.rank]

theorem decidePhaseV2_rank_two (t z vz : ℚ) (l : Bool) (ht : ¬ t < 2 + 8/5) :
    2 ≤ (decidePhaseV2 t z vz l).1.rank := by
  have ht2 : ¬ t < 2 := fun h => ht (by linarith)
  unfold decidePhaseV2
  rw [if_neg ht2, if_neg ht]
  split_ifs <;> simp [FlightPhase.rank]

theorem decidePhaseV2_landed (t z vz : ℚ) (l : Bool) (ht : ¬ t < 2 + 8/5)
    (hz : z = 0) (hvz : vz = 0) :
    (decidePhaseV2 t z vz l).1 = .landed := by
  have ht2 : ¬ t < 2 := fun h => ht (by linarith)
  unfold decidePhaseV2
  rw [if_neg ht2, if_neg ht, if_pos (by rw [hz, hvz]; norm_num)]

theorem decidePhaseV2_from_descent (t z vz : ℚ) (hz600 : z ≤ 600) (hvz : vz < 0) :
    (decidePhaseV2 t z vz true).1 = .preFlight ∨
    (decidePhaseV2 t z vz true).1 = .poweredAscent ∨
    (decidePhaseV2 t z vz true).1 = .landed ∨
    (decidePhaseV2 t z vz true).1 = .drogueDeploy ∨
    (decidePhaseV2 t z vz true).1 = .mainDeploy := by
  unfold decidePhaseV2
  split_ifs with h1 h2 h3 h4 h5 h6 h7 <;> simp_all <;> linarith

theorem decidePhaseV2_main_only (t z vz : ℚ) (hz150 : z ≤ 150) (hvz : vz < 0) :
    (decidePhaseV2 t z vz true).1 = .preFlight ∨
    (decidePhaseV2 t z vz true).1 = .poweredAscent ∨
    (decidePhaseV2 t z vz true).1 = .landed ∨
    (decidePhaseV2 t z vz true).1 = .mainDeploy := by
  unfold decidePhaseV2
  split_ifs with h1 h2 h3 h4 h5 h6 h7 <;> simp_all <;> linarith

theorem decidePhaseV2_apogee_facts (t z vz : ℚ) (l : Bool)
    (h : (decidePhaseV2 t z vz l).1 = .apogee) :
    l = false ∧ (decidePhaseV2 t z vz l).2 = true := by
  unfold decidePhaseV2 at h ⊢
  split_ifs at h ⊢ <;> simp_all

theorem decidePhaseV2_latch_mono (t z vz : ℚ) :
    (decidePhaseV2 t z vz true).2 = true := by
  unfold decidePhaseV2
  split_ifs <;> rfl

theorem decidePhaseV2_latch_of_phase (t z vz : ℚ) (l : Bool)
    (h : (decidePhaseV2 t z vz l).1 = .apogee ∨ (decidePhaseV2 t z vz l).1 = .drogueDeploy ∨
      (decidePhaseV2 t z vz l).1 = .mainDeploy) :
    (decidePhaseV2 t z vz l).2 = true := by
  unfold decidePhaseV2 at h ⊢
  split_ifs at h ⊢ <;> simp_all

theorem decidePhaseV2_powered_t (t z vz : ℚ) (l : Bool)
    (h : (decidePhaseV2 t z vz l).1 = .poweredAscent) : 2 ≤ t := by
  unfold decidePhaseV2 at h
  split_ifs at h <;> simp_all <;> linarith

theorem decidePhaseV2_post_t (t z vz : ℚ) (l : Bool)
    (h : 2 ≤ (decidePhaseV2 t z vz l).1.rank) : 2 + 8/5 ≤ t := by
  unfold decidePhaseV2 at h
  split_ifs at h <;> simp_all [FlightPhase.rank] <;> linarith

theorem decidePhaseV2_drogue_facts (t z vz : ℚ) (l : Bool)
    (h : (decidePhaseV2 t z vz l).1 = .drogueDeploy) : vz < 0 ∧ z ≤ 600 := by
  unfold decidePhaseV2 at h
  split_ifs at h <;> simp_all <;> linarith

theorem decidePhaseV2_main_facts (t z vz : ℚ) (l : Bool)
    (h : (decidePhaseV2 t z vz l).1 = .mainDeploy) : vz < 0 ∧ z ≤ 150 := by
  unfold decidePhaseV2 at h
  split_ifs at h <;> simp_all <;> linarith

theorem simDt_nonneg (now : ℕ) (st : SimState) (hle : st.last ≤ now) :
    0 ≤ simDt now st := by
  unfold simDt
  have h : (0:ℚ) ≤ ((now : ℚ) - (st.last : ℚ)) / 1000 := by
    apply div_nonneg _ (by norm_num)
    have : (st.last : ℚ) ≤ (now : ℚ) := by exact_mod_cast hle
    linarith
  exact le_min (by norm_num) h

theorem simDt_le (now : ℕ) (st : SimState) : simDt now st ≤ 1/20 :=
  min_le_left _ _

theorem simT_ge_tAt (now : ℕ) (st : SimState) (hle : st.last ≤ now) :
    tAt st ≤ simT now st := by
  unfold tAt simT
  have : (st.last : ℚ) ≤ (now : ℚ) := by exact_mod_cast hle
  apply div_le_div_of_nonneg_right ?_ (by norm_num)
  linarith

theorem simPostV2_tAt (now : ℕ) (st : SimState) :
    tAt (simPostV2 now st) = simT now st := rfl

theorem amendedAllowed_from_apogee (q : FlightPhase) (h : 2 ≤ q.rank) :
    amendedAllowed .apogee q := by
  cases q with
  | preFlight => exact absurd h (by norm_num [FlightPhase.rank])
  | poweredAscent => exact absurd h (by norm_num [FlightPhase.rank])
  | burnout => exact Or.inr ⟨rfl, rfl⟩
  | apogee => exact Or.inl (by norm_num [FlightPhase.rank])
  | drogueDeploy => exact Or.inl (by norm_num [FlightPhase.rank])
  | mainDeploy => exact Or.inl (by norm_num [FlightPhase.rank])
  | landed => exact Or.inl (by norm_num [FlightPhase.rank])

theorem landed_decides_landed (st : SimState) (now : ℕ) (hinv : SimInv st)
    (hle : st.last ≤ now) (hp : st.phase = .landed) :
    (simDecideV2 now st).1 = .landed := by
  obtain ⟨hz, hvz⟩ := integrateV2_landed st (simDt now st) hp
  unfold simDecideV2
  apply decidePhaseV2_landed _ _ _ _ _ hz hvz
  have h36 : 2 + 8/5 ≤ tAt st := hinv.postT (by rw [hp]; norm_num [FlightPhase.rank])
  have := simT_ge_tAt now st hle
  intro hlt
  linarith

theorem stepV2_allowed (st : SimState) (now : ℕ) (hinv : SimInv st)
    (hle : st.last ≤ now) :
    amendedAllowed st.phase (simDecideV2 now st).1 := by
  have hdt0 := simDt_nonneg now st hle
  have hdt1 := simDt_le now st
  have htat := simT_ge_tAt now st hle
  cases hp : st.phase with
  | preFlight => exact Or.inl (by simp [FlightPhase.rank])
  | poweredAscent =>
    left
    have h2 : 2 ≤ tAt st := hinv.poweredT hp
    have hnot : ¬ simT now st < 2 := by intro h; linarith
    have := decidePhaseV2_rank_one (simT now st)
      (integrateV2 (simDt now st) st).z (integrateV2 (simDt now st) st).vz
      st.apogeeReached hnot
    simpa [FlightPhase.rank, simDecideV2] using this
  | burnout =>
    left
    have h36 : 2 + 8/5 ≤ tAt st := hinv.postT (by rw [hp]; norm_num [FlightPhase.rank])
    have hnot : ¬ simT now st < 2 + 8/5 := by intro h; linarith
    have := decidePhaseV2_rank_two (simT now st)
      (integrateV2 (simDt now st) st).z (integrateV2 (simDt now st) st).vz
      st.apogeeReached hnot
    simpa [FlightPhase.rank, simDecideV2] using this
  | apogee =>
    have h36 : 2 + 8/5 ≤ tAt st := hinv.postT (by rw [hp]; norm_num [FlightPhase.rank])
    have hnot : ¬ simT now st < 2 + 8/5 := by intro h; linarith
    exact amendedAllowed_from_apogee _ (decidePhaseV2_rank_two _ _ _ _ hnot)
  | drogueDeploy =>
    left
    obtain ⟨hvz, hz600⟩ := hinv.drogueState hp
    have h36 : 2 + 8/5 ≤ tAt st := hinv.postT (by rw [hp]; norm_num [FlightPhase.rank])
    have hnot : ¬ simT now st < 2 + 8/5 := by intro h; linarith
    have hlatch : st.apogeeReached = true := hinv.apogeeLatch (Or.inr (Or.inl hp))
    rcases integrateV2_drogue st (simDt now st) hp hvz hinv.zNonneg hdt0 hdt1 with
      ⟨hz0, hvz0⟩ | ⟨hvz1, hzle⟩
    · have hL : (simDecideV2 now st).1 = .landed := by
        unfold simDecideV2
        exact decidePhaseV2_landed _ _ _ _ (fun h => hnot h) hz0 hvz0
      rw [hL]
      norm_num [FlightPhase.rank]
    · have hrank := decidePhaseV2_rank_two (simT now st)
        (integrateV2 (simDt now st) st).z (integrateV2 (simDt now st) st).vz
        true hnot
      have hcases := decidePhaseV2_from_descent (simT now st)
        (integrateV2 (simDt now st) st).z (integrateV2 (simDt now st) st).vz
        (le_trans hzle hz600) hvz1
      unfold simDecideV2
      rw [hlatch]
      rcases hcases with h | h | h | h | h
      · exact absurd hrank (by rw [h]; norm_num [FlightPhase.rank])
      · exact absurd hrank (by rw [h]; norm_num [FlightPhase.rank])
      · rw [h]
        try norm_num [FlightPhase.rank]
      · rw [h]
        try norm_num [FlightPhase.rank]
      · rw [h]
        try norm_num [FlightPhase.rank]
  | mainDeploy =>
    left
    obtain ⟨hvz, hz150⟩ := hinv.mainState hp
    have h36 : 2 + 8/5 ≤ tAt st := hinv.postT (by rw [hp]; norm_num [FlightPhase.rank])
    have hnot : ¬ simT now st < 2 + 8/5 := by intro h; linarith
    have hlatch : st.apogeeReached = true := hinv.apogeeLatch (Or.inr (Or.inr hp))
    rcases integrateV2_main st (simDt now st) hp hvz hinv.zNonneg hdt0 hdt1 with
      ⟨hz0, hvz0⟩ | ⟨hvz1, hzle⟩
    · have hL : (simDecideV2 now st).1 = .landed := by
        unfold simDecideV2
        exact decidePhaseV2_landed _ _ _ _ (fun h => hnot h) hz0 hvz0
      rw [hL]
      norm_num [FlightPhase.rank]
    · have hrank := decidePhaseV2_rank_two (simT now st)
        (integrateV2 (simDt now st) st).z (integrateV2 (simDt now st) st).vz
        true hnot
      have hcases := decidePhaseV2_main_only (simT now st)
        (integrateV2 (simDt now st) st).z (integrateV2 (simDt now st) st).vz
        (le_trans hzle hz150) hvz1
      unfold simDecideV2
      rw [hlatch]
      rcases hcases with h | h | h | h
      · exact absurd hrank (by rw [h]; norm_num [FlightPhase.rank])
      · exact absurd hrank (by rw [h]; norm_num [FlightPhase.rank])
      · rw [h]
        try norm_num [FlightPhase.rank]
      · rw [h]
        try norm_num [FlightPhase.rank]
  | landed =>
    left
    rw [landed_decides_landed st now hinv hle hp]

theorem simPostV2_core (st : SimState) (now : ℕ) (hinv : SimInv st)
    (hle : st.last ≤ now) :
    0 < (simPostV2 now st).t0 ∧
    (simPostV2 now st).t0 ≤ (simPostV2 now st).last ∧
    0 ≤ (simPostV2 now st).z ∧
    ((simPostV2 now st).phase = .poweredAscent → 2 ≤ tAt (simPostV2 now st)) ∧
    (2 ≤ (simPostV2 now st).phase.rank → 2 + 8/5 ≤ tAt (simPostV2 now st)) ∧
    ((simPostV2 now st).phase = .apogee ∨ (simPostV2 now st).phase = .drogueDeploy ∨
      (simPostV2 now st).phase = .mainDeploy → (simPostV2 now st).apogeeReached = true) ∧
    ((simPostV2 now st).phase = .drogueDeploy →
      (simPostV2 now st).vz < 0 ∧ (simPostV2 now st).z ≤ 600) ∧
    ((simPostV2 now st).phase = .mainDeploy →
      (simPostV2 now st).vz < 0 ∧ (simPostV2 now st).z ≤ 150) := by
  refine ⟨hinv.t0pos, le_trans hinv.lastGe hle, integrateV2_z_nonneg st (simDt now st),
    ?_, ?_, ?_, ?_, ?_⟩
  · intro hp
    rw [simPostV2_tAt]
    exact decidePhaseV2_powered_t _ _ _ _ hp
  · intro hp
    rw [simPostV2_tAt]
    exact decidePhaseV2_post_t _ _ _ _ hp
  · intro hp
    exact decidePhaseV2_latch_of_phase _ _ _ _ hp
  · intro hp
    exact decidePhaseV2_drogue_facts _ _ _ _ hp
  · intro hp
    exact decidePhaseV2_main_facts _ _ _ _ hp

theorem stepV2_inv (st : SimState) (now : ℕ) (hinv : SimInv st)
    (hle : st.last ≤ now) :
    SimInv (stepSimV2 now st).1 := by
  have h0 : st.t0 ≠ 0 := by have := hinv.t0pos; omega
  obtain ⟨c1, c2, c3, c4, c5, c6, c7, c8⟩ := simPostV2_core st now hinv hle
  have hflagL : st.landedFlag = true → (simDecideV2 now st).1 = .landed := fun hf =>
    landed_decides_landed st now hinv hle (hinv.flagPhase hf)
  unfold stepSimV2
  rw [if_neg h0]
  by_cases hL : (simDecideV2 now st).1 = .landed
  · rw [if_pos hL]
    by_cases hf : st.landedFlag = false
    · rw [if_pos hf]
      exact ⟨c1, c2, c3, c4, c5, c6, c7, c8, fun _ => hL, fun _ => rfl, fun _ => rfl⟩
    · rw [if_neg hf]
      have hft : st.landedFlag = true := by
        cases hfl : st.landedFlag
        · exact absurd hfl hf
        · rfl
      exact ⟨c1, c2, c3, c4, c5, c6, c7, c8, fun _ => hL, fun _ => hft,
        fun _ => hinv.flagStop hft⟩
  · rw [if_neg hL]
    exact ⟨c1, c2, c3, c4, c5, c6, c7, c8,
      fun hf => absurd (hflagL hf) hL,
      fun hp => absurd hp hL,
      fun hf => hinv.flagStop hf⟩

theorem stepV2_phase (st : SimState) (now : ℕ) (h0 : st.t0 ≠ 0) :
    (stepSimV2 now st).1.phase = (simDecideV2 now st).1 := by
  unfold stepSimV2
  rw [if_neg h0]
  split_ifs <;> rfl

theorem stepV2_emit_eq (st : SimState) (now : ℕ) (h0 : st.t0 ≠ 0) (q : FlightPhase)
    (h : (stepSimV2 now st).2 = some q) :
    q = (simDecideV2 now st).1 := by
  unfold stepSimV2 at h
  rw [if_neg h0] at h
  split_ifs at h with hL hf
  · rw [hL]
    exact (Option.some_inj.mp h).symm
  · exact (Option.some_inj.mp h).symm

theorem stepV2_flag_none (st : SimState) (now : ℕ) (hinv : SimInv st)
    (hle : st.last ≤ now) (hf : st.landedFlag = true) :
    (stepSimV2 now st).2 = none ∧ (stepSimV2 now st).1.landedFlag = true := by
  have h0 : st.t0 ≠ 0 := by have := hinv.t0pos; omega
  have hL := landed_decides_landed st now hinv hle (hinv.flagPhase hf)
  unfold stepSimV2
  rw [if_neg h0, if_pos hL, if_neg (by rw [hf]; simp)]
  exact ⟨rfl, hf⟩

theorem stepV2_latch_mono (st : SimState) (now : ℕ) (h0 : st.t0 ≠ 0)
    (hl : st.apogeeReached = true) :
    (stepSimV2 now st).1.apogeeReached = true ∧
    (stepSimV2 now st).2 ≠ some .apogee := by
  have hpost : (stepSimV2 now st).1.apogeeReached = (simDecideV2 now st).2 := by
    unfold stepSimV2
    rw [if_neg h0]
    split_ifs <;> rfl
  have hlatch2 : (simDecideV2 now st).2 = true := by
    unfold simDecideV2
    rw [hl]
    exact decidePhaseV2_latch_mono _ _ _
  refine ⟨by rw [hpost, hlatch2], fun h => ?_⟩
  have hq := stepV2_emit_eq st now h0 .apogee h
  have := decidePhaseV2_apogee_facts _ _ _ _ hq.symm
  rw [hl] at this
  exact absurd this.1 (by simp)

theorem stepV2_emit_apogee (st : SimState) (now : ℕ) (h0 : st.t0 ≠ 0)
    (h : (stepSimV2 now st).2 = some .apogee) :
    st.apogeeReached = false ∧ (stepSimV2 now st).1.apogeeReached = true := by
  have hq := stepV2_emit_eq st now h0 .apogee h
  have hfacts := decidePhaseV2_apogee_facts _ _ _ _ hq.symm
  have hpost : (stepSimV2 now st).1.apogeeReached = (simDecideV2 now st).2 := by
    unfold stepSimV2
    rw [if_neg h0]
    split_ifs <;> rfl
  exact ⟨hfacts.1, by rw [hpost]; exact hfacts.2⟩

theorem stepV2_emit_landed (st : SimState) (now : ℕ) (h0 : st.t0 ≠ 0)
    (h : (stepSimV2 now st).2 = some .landed) :
    st.landedFlag = false ∧ (stepSimV2 now st).1.landedFlag = true := by
  unfold stepSimV2 at h ⊢
  rw [if_neg h0] at h ⊢
  split_ifs at h with hL hf
  · rw [if_pos hL, if_pos hf]
    exact ⟨hf, rfl⟩
  · exact absurd (Option.some_inj.mp h) hL

theorem stepV2_flag_preserved (st : SimState) (now : ℕ) (h0 : st.t0 ≠ 0)
    (hf : st.landedFlag = false) (hne : (stepSimV2 now st).2 ≠ some .landed) :
    (stepSimV2 now st).1.landedFlag = false := by
  unfold stepSimV2 at hne ⊢
  rw [if_neg h0] at hne ⊢
  split_ifs at hne ⊢ with hL
  · exact absurd rfl hne
  · exact hf

theorem stepV2_last (st : SimState) (now : ℕ) (h0 : st.t0 ≠ 0) :
    (stepSimV2 now st).1.last = now := by
  unfold stepSimV2
  rw [if_neg h0]
  split_ifs <;> rfl

theorem stepV2_emit_some_of_flag (st : SimState) (now : ℕ) (h0 : st.t0 ≠ 0)
    (hf : st.landedFlag = false) :
    (stepSimV2 now st).2 = some (simDecideV2 now st).1 := by
  unfold stepSimV2
  rw [if_neg h0]
  split_ifs with hL
  · rw [hL]
  · rfl

theorem runSimV2_cons (st : SimState) (now : ℕ) (rest : List ℕ) :
    runSimV2 st (now :: rest) =
      ((runSimV2 (stepSimV2 now st).1 rest).1,
       (stepSimV2 now st).2.toList ++ (runSimV2 (stepSimV2 now st).1 rest).2) := by
  simp [runSimV2]

theorem runSimV2_aux (times : List ℕ) :
    ∀ st : SimState, SimInv st → List.Chain (· ≤ ·) st.last times →
      (∀ y ∈ (runSimV2 st times).2.head?, amendedAllowed st.phase y) ∧
      List.Chain' amendedAllowed (runSimV2 st times).2 ∧
      (st.landedFlag = true → (runSimV2 st times).2 = []) ∧
      (st.apogeeReached = true → FlightPhase.apogee ∉ (runSimV2 st times).2) ∧
      (runSimV2 st times).2.count .apogee ≤ 1 ∧
      (runSimV2 st times).2.count .landed ≤ 1 ∧
      (∀ l₁ l₂, (runSimV2 st times).2 = l₁ ++ .landed :: l₂ → l₂ = []) ∧
      ((runSimV2 st times).1.landedFlag = true →
        st.landedFlag = true ∨ FlightPhase.landed ∈ (runSimV2 st times).2) ∧
      SimInv (runSimV2 st times).1 := by
  induction times with
  | nil =>
    intro st hinv _
    refine ⟨by simp [runSimV2], by simp [runSimV2], fun _ => rfl, by simp [runSimV2],
      by simp [runSimV2], by simp [runSimV2], ?_, fun h => Or.inl h, hinv⟩
    intro l₁ l₂ heq
    simp [runSimV2] at heq
  | cons now rest ih =>
    intro st hinv hch
    have h0 : st.t0 ≠ 0 := by have := hinv.t0pos; omega
    rw [List.chain_cons] at hch
    obtain ⟨hle, hch'⟩ := hch
    have hinv1 : SimInv (stepSimV2 now st).1 := stepV2_inv st now hinv hle
    have hlast1 : (stepSimV2 now st).1.last = now := stepV2_last st now h0
    have hch1 : List.Chain (· ≤ ·) (stepSimV2 now st).1.last rest := by
      rw [hlast1]; exact hch'
    obtain ⟨q1, q2, q3, q4, q5, q6, q7, q8, q9⟩ := ih (stepSimV2 now st).1 hinv1 hch1
    rw [runSimV2_cons]
    by_cases hf : st.landedFlag = true
    · -- everything already landed: no further emissions at all
      obtain ⟨hnone, hflag1⟩ := stepV2_flag_none st now hinv hle hf
      have hrest : (runSimV2 (stepSimV2 now st).1 rest).2 = [] := q3 hflag1
      rw [hnone, hrest]
      refine ⟨by simp, by simp, fun _ => rfl, by simp, by simp, by simp, ?_,
        fun _ => Or.inl hf, q9⟩
      intro l₁ l₂ heq
      simp only [Option.toList_none, List.nil_append] at heq
      exact absurd heq.symm (by simp [List.append_eq_nil])
    · -- live tick: exactly one packet, carrying the newly decided phase
      have hf0 : st.landedFlag = false := by
        cases hfl : st.landedFlag
        · rfl
        · exact absurd hfl hf
      have hemit := stepV2_emit_some_of_flag st now h0 hf0
      have hphase1 : (stepSimV2 now st).1.phase = (simDecideV2 now st).1 :=
        stepV2_phase st now h0
      rw [hemit]
      simp only [Option.toList_some, List.singleton_append]
      constructor
      · intro y hy
        simp only [List.head?_cons, Option.mem_some_iff] at hy
        rw [← hy]
        exact stepV2_allowed st now hinv hle
      constructor
      · rw [List.chain'_cons']
        refine ⟨fun y hy => ?_, q2⟩
        have := q1 y hy
        rw [hphase1] at this
        exact this
      constructor
      · intro h
        exact absurd h (by rw [hf0]; simp)
      constructor
      · intro hl
        obtain ⟨hl1, hne⟩ := stepV2_latch_mono st now h0 hl
        intro hmem
        rcases List.mem_cons.mp hmem with hq | hmem2
        · exact hne (by rw [hemit, ← hq])
        · exact q4 hl1 hmem2
      constructor
      · -- at most one apogee packet
        by_cases hq : (simDecideV2 now st).1 = .apogee
        · have hap := stepV2_emit_apogee st now h0 (by rw [hemit, hq])
          have hnotmem : FlightPhase.apogee ∉ (runSimV2 (stepSimV2 now st).1 rest).2 :=
            q4 hap.2
          rw [hq]
          simp [List.count_cons, List.count_eq_zero.mpr hnotmem]
        · rw [List.count_cons]
          have hb : ((simDecideV2 now st).1 == FlightPhase.apogee) = false := by
            simp [hq]
          rw [hb]
          simpa using q5
      constructor
      · -- at most one landed packet
        by_cases hq : (simDecideV2 now st).1 = .landed
        · have hland := stepV2_emit_landed st now h0 (by rw [hemit, hq])
          have hrest : (runSimV2 (stepSimV2 now st).1 rest).2 = [] := q3 hland.2
          rw [hq, hrest]
          simp
        · rw [List.count_cons]
          have hb : ((simDecideV2 now st).1 == FlightPhase.landed) = false := by
            simp [hq]
          rw [hb]
          simpa using q6
      constructor
      · -- nothing is emitted after the landed packet
        intro l₁ l₂ heq
        rcases l₁ with _ | ⟨a, l₁⟩
        · simp only [List.nil_append, List.cons_eq_cons] at heq
          obtain ⟨hq, hrest⟩ := heq
          have hland := stepV2_emit_landed st now h0 (by rw [hemit, hq])
          have : (runSimV2 (stepSimV2 now st).1 rest).2 = [] := q3 hland.2
          rw [this] at hrest
          exact hrest.symm
        · simp only [List.cons_append, List.cons_eq_cons] at heq
          exact q7 l₁ l₂ heq.2
      constructor
      · -- the landed one-shot is set exactly by emitting the landed packet
        intro hfl
        rcases q8 hfl with h1 | h2
        · by_cases hq : (simDecideV2 now st).1 = .landed
          · exact Or.inr (by rw [hq]; exact List.mem_cons_self _ _)
          · exfalso
            have := stepV2_flag_preserved st now h0 hf0
              (by rw [hemit]; intro hcon; exact hq (Option.some_inj.mp hcon))
            rw [this] at h1
            cases h1
        · exact Or.inr (List.mem_cons_of_mem _ h2)
      · exact q9

theorem initStep_state (now : ℕ) :
    stepSimV2 now initSimState = ({ initSimState with t0 := now, last := now }, none) := by
  unfold stepSimV2
  rw [if_pos (show initSimState.t0 = 0 from rfl)]

theorem initStep_inv (now : ℕ) (hpos : 0 < now) :
    SimInv { initSimState with t0 := now, last := now } := by
  refine ⟨hpos, le_refl _, le_refl _, ?_, ?_, ?_, ?_, ?_, ?_, ?_, ?_⟩ <;>
    intro h <;> simp [initSimState] at h
  · exact absurd h (by norm_num [FlightPhase.rank, initSimState])

theorem runSimV2_session (times : List ℕ) (hpos : ∀ x ∈ times, 0 < x)
    (hch : List.Chain' (· ≤ ·) times) :
    List.Chain' amendedAllowed (emittedV2 times) ∧
    (emittedV2 times).count .apogee ≤ 1 ∧
    (emittedV2 times).count .landed ≤ 1 ∧
    (∀ l₁ l₂, emittedV2 times = l₁ ++ .landed :: l₂ → l₂ = []) ∧
    ((runSimV2 initSimState times).1.phase = .landed →
      (emittedV2 times).count .landed = 1 ∧
      (runSimV2 initSimState times).1.stopScheduled = true) := by
  cases times with
  | nil =>
    refine ⟨by simp [emittedV2, runSimV2], by simp [emittedV2, runSimV2],
      by simp [emittedV2, runSimV2], ?_, ?_⟩
    · intro l₁ l₂ heq
      simp [emittedV2, runSimV2] at heq
    · intro h
      exact absurd h (by simp [runSimV2, initSimState])
  | cons now rest =>
    have hnow : 0 < now := hpos now (List.mem_cons_self _ _)
    have hinv1 : SimInv { initSimState with t0 := now, last := now } :=
      initStep_inv now hnow
    have hch1 : List.Chain (· ≤ ·)
        ({ initSimState with t0 := now, last := now } : SimState).last rest := hch
    obtain ⟨q1, q2, q3, q4, q5, q6, q7, q8, q9⟩ := runSimV2_aux rest _ hinv1 hch1
    have hrw : emittedV2 (now :: rest) =
        (runSimV2 { initSimState with t0 := now, last := now } rest).2 := by
      unfold emittedV2
      rw [runSimV2_cons, initStep_state]
      simp
    have hfinal : (runSimV2 initSimState (now :: rest)).1 =
        (runSimV2 { initSimState with t0 := now, last := now } rest).1 := by
      rw [runSimV2_cons, initStep_state]
    refine ⟨by rw [hrw]; exact q2, by rw [hrw]; exact q5, by rw [hrw]; exact q6,
      ?_, ?_⟩
    · intro l₁ l₂ heq
      rw [hrw] at heq
      exact q7 l₁ l₂ heq
    · intro hphase
      rw [hfinal] at hphase
      have hflag := q9.phaseFlag hphase
      have hmem : FlightPhase.landed ∈
          (runSimV2 { initSimState with t0 := now, last := now } rest).2 := by
        rcases q8 hflag with h1 | h2
        · exact absurd h1 (by simp [initSimState])
        · exact h2
      constructor
      · rw [hrw]
        have hp1 : 0 < (runSimV2 { initSimState with t0 := now, last := now } rest).2.count
            FlightPhase.landed := List.count_pos_iff.mpr hmem
        omega
      · rw [hfinal]
        exact q9.flagStop hflag

/-! ## Flight simulator, early-decision variant
(`useTelemetrySimulation`, second document of `useTelemetryWebSocket.ts`,
lines 140–347: the phase is decided from the previous state before
integration, with a post-integration apogee override).  Its physics uses
`Math.cos`/`Math.sin`, so this embedding lives in `ℝ`. -/

/-- `Math.sign` on `ℝ`. -/
noncomputable def signR (x : ℝ) : ℝ :=
  if 0 < x then 1 else if x < 0 then -1 else 0

/-- The early-decision simulator's mutable state. -/
structure SimStateV1 where
  x : ℝ
  y : ℝ
  z : ℝ
  vx : ℝ
  vy : ℝ
  vz : ℝ
  phase : FlightPhase
  apogeeReached : Bool
  landedFlag : Bool
  stopScheduled : Bool
  t0 : ℕ
  last : ℕ

/-- The state `startSimulation()` resets to (lines 322–331). -/
def initSimStateV1 : SimStateV1 :=
  ⟨0, 0, 0, 0, 0, 0, .preFlight, false, false, false, 0, 0⟩

/-- The pre-integration phase cascade of the early-decision variant
(lines 192–203): timeline gates, then the chained state guards. -/
noncomputable def chainV1 (t vz z : ℝ) (p : FlightPhase) (latch : Bool) : FlightPhase :=
  let p1 :=
    if t < 2 then FlightPhase.preFlight
    else if 2 ≤ t ∧ t < 2 + 13/2 then FlightPhase.poweredAscent
    else if latch = false then FlightPhase.burnout
    else if p = FlightPhase.burnout ∧ latch = true then FlightPhase.apogee
    else p
  let p2 := if p1 = FlightPhase.apogee ∧ vz < -10 then FlightPhase.drogueDeploy else p1
  let p3 := if p2 = FlightPhase.drogueDeploy ∧ z ≤ 150 + 50 then FlightPhase.mainDeploy else p2
  if p3 = FlightPhase.mainDeploy ∧ z ≤ 5 ∧ |vz| < 2 then FlightPhase.landed else p3

/-- Physics of one tick of the early-decision variant (lines 206–254),
with accelerations governed by the phase `p` just decided: thrust profile
with a raised-cosine taper, coast drag, parachute relaxations, tilt and
wind, semi-implicit Euler integration and the ground clamp. -/
noncomputable def integrateV1 (t dt : ℝ) (p : FlightPhase) (st : SimStateV1) : SimStateV1 :=
  let sz := if p = .landed then 0 else st.z
  let svz := if p = .landed then 0 else st.vz
  let az : ℝ :=
    if p = .poweredAscent then
      -9.81 + 85 * (0.55 + 0.45 * Real.cos (((t - 2) / (13/2)) * Real.pi))
    else if p = .burnout then -9.81 + -(0.00018) * st.vz ^ 2
    else if p = .drogueDeploy then -9.81 + (-35 - st.vz) * 0.5
    else if p = .mainDeploy then -9.81 + (-7 - st.vz) * 0.9
    else if p = .landed then 0
    else -9.81
  let hm : ℝ := 1.5 * Real.sin (5 * Real.pi / 180)
  let ax : ℝ :=
    if p = .poweredAscent ∨ p = .burnout then
      hm * Real.cos (35 * Real.pi / 180) + 0.2
    else if p = .drogueDeploy ∨ p = .mainDeploy then (5 - st.vx) * 0.3
    else 0
  let ay : ℝ :=
    if p = .poweredAscent ∨ p = .burnout then
      hm * Real.sin (35 * Real.pi / 180) + -0.05
    else if p = .drogueDeploy ∨ p = .mainDeploy then (-2 - st.vy) * 0.3
    else 0
  let vx1 := st.vx + ax * dt
  let vy1 := st.vy + ay * dt
  let vz1 := svz + az * dt
  let x1 := st.x + vx1 * dt
  let y1 := st.y + vy1 * dt
  let z1 := sz + vz1 * dt
  let z2 := if z1 < 0 then 0 else z1
  let vz2 := if z1 < 0 then 0 else vz1
  { st with x := x1, y := y1, z := z2, vx := vx1, vy := vy1, vz := vz2 }

/-- `dt` of a tick of the early-decision variant (line 185). -/
noncomputable def simDtV1 (now : ℕ) (st : SimStateV1) : ℝ :=
  min (1/20) (((now : ℝ) - (st.last : ℝ)) / 1000)

/-- Elapsed flight time of a tick of the early-decision variant (line 187). -/
noncomputable def simTV1 (now : ℕ) (st : SimStateV1) : ℝ :=
  ((now : ℝ) - (st.t0 : ℝ)) / 1000

/-- The pre-integration phase this tick decides (lines 192–204). -/
noncomputable def simChainV1 (now : ℕ) (st : SimStateV1) : FlightPhase :=
  chainV1 (simTV1 now st) st.vz st.z st.phase st.apogeeReached

/-- The integrated state of this tick (lines 206–254). -/
noncomputable def simIntegV1 (now : ℕ) (st : SimStateV1) : SimStateV1 :=
  integrateV1 (simTV1 now st) (simDtV1 now st) (simChainV1 now st) st

/-- The post-integration apogee-override guard (line 257). -/
def overrideV1 (now : ℕ) (st : SimStateV1) : Prop :=
  st.apogeeReached = false ∧ (simIntegV1 now st).vz ≤ 0 ∧ simChainV1 now st = .burnout

open scoped Classical

/-- The phase `flightPhaseRef` holds after the override (lines 257–260),
i.e. the phase the emitted packet carries (line 296). -/
noncomputable def refV1 (now : ℕ) (st : SimStateV1) : FlightPhase :=
  if overrideV1 now st then .apogee else simChainV1 now st

/-- The apogee latch after the override. -/
noncomputable def latchV1 (now : ℕ) (st : SimStateV1) : Bool :=
  if overrideV1 now st then true else st.apogeeReached

/-- The simulator state after one tick of the early-decision variant
(before the emission bookkeeping). -/
noncomputable def simPostV1 (now : ℕ) (st : SimStateV1) : SimStateV1 :=
  { simIntegV1 now st with
    phase := refV1 now st
    apogeeReached := latchV1 now st
    last := now }

/-- One call of the early-decision `stepSimulation` (lines 178–318):
record `t0` on the first call; otherwise decide the phase from the
previous state, integrate under the new phase, apply the one-shot apogee
override (`vz ≤ 0` while in `burnout`, latch not yet set), and emit one
packet carrying `flightPhaseRef` — with the same landed one-shot emission
stop and stop-timeout scheduling as the other variant (lines 301–316). -/
noncomputable def stepSimV1 (now : ℕ) (st : SimStateV1) : SimStateV1 × Option FlightPhase :=
  if st.t0 = 0 then ({ st with t0 := now, last := now }, none)
  else if refV1 now st = .landed then
    if st.landedFlag = false then
      ({ simPostV1 now st with landedFlag := true, stopScheduled := true }, some .landed)
    else (simPostV1 now st, none)
  else (simPostV1 now st, some (refV1 now st))

/-- Run a whole session of the early-decision variant. -/
noncomputable def runSimV1 : SimStateV1 → List ℕ → SimStateV1 × List FlightPhase
  | st, [] => (st, [])
  | st, now :: rest =>
      let s1 := stepSimV1 now st
      let sr := runSimV1 s1.1 rest
      (sr.1, s1.2.toList ++ sr.2)

/-- The phases carried by the packets an early-decision session emits. -/
noncomputable def emittedV1 (times : List ℕ) : List FlightPhase :=
  (runSimV1 initSimStateV1 times).2

/-- Elapsed session time of a post-start early-decision state. -/
noncomputable def tAtV1 (st : SimStateV1) : ℝ :=
  ((st.last : ℝ) - (st.t0 : ℝ)) / 1000

/-- Invariant of reachable post-start states of the early-decision
simulator. -/
structure SimInvV1 (st : SimStateV1) : Prop where
  t0pos : 0 < st.t0
  lastGe : st.t0 ≤ st.last
  poweredT : st.phase = .poweredAscent → 2 ≤ tAtV1 st ∧ tAtV1 st < 2 + 13/2
  burnoutT : st.phase = .burnout → 2 + 13/2 ≤ tAtV1 st ∧ st.apogeeReached = false
  latchT : st.apogeeReached = true → 2 + 13/2 ≤ tAtV1 st
  latchPhases : st.phase = .apogee ∨ st.phase = .drogueDeploy ∨
      st.phase = .mainDeploy ∨ st.phase = .landed →
    st.apogeeReached = true ∧ 2 + 13/2 ≤ tAtV1 st
  flagPhase : st.landedFlag = true → st.phase = .landed
  phaseFlag : st.phase = .landed → st.landedFlag = true
  flagStop : st.landedFlag = true → st.stopScheduled = true

theorem chainV1_pre (t vz z : ℝ) (p : FlightPhase) (latch : Bool) (ht : t < 2) :
    chainV1 t vz z p latch = .preFlight := by
  unfold chainV1
  split_ifs <;> simp_all

theorem chainV1_powered (t vz z : ℝ) (p : FlightPhase) (latch : Bool)
    (h2 : 2 ≤ t) (h3 : t < 2 + 13/2) :
    chainV1 t vz z p latch = .poweredAscent := by
  unfold chainV1
  split_ifs <;> simp_all <;> linarith

theorem chainV1_burnout (t vz z : ℝ) (p : FlightPhase)
    (h2 : ¬ t < 2) (h3 : ¬ t < 2 + 13/2) :
    chainV1 t vz z p false = .burnout := by
  unfold chainV1
  split_ifs <;> simp_all <;> tauto

theorem chainV1_from_latched (t vz z : ℝ) (p : FlightPhase)
    (hp : p = .apogee ∨ p = .drogueDeploy ∨ p = .mainDeploy ∨ p = .landed)
    (h2 : ¬ t < 2) (h3 : ¬ t < 2 + 13/2) :
    p.rank ≤ (chainV1 t vz z p true).rank ∧
    (chainV1 t vz z p true ≠ .burnout) ∧
    (p = .landed → chainV1 t vz z p true = .landed) ∧
    (chainV1 t vz z p true = .apogee ∨ chainV1 t vz z p true = .drogueDeploy ∨
      chainV1 t vz z p true = .mainDeploy ∨ chainV1 t vz z p true = .landed) := by
  rcases hp with hp | hp | hp | hp <;>
    (subst hp
     by_cases hd : vz < -10 <;> by_cases hz200 : z ≤ 150 + 50 <;>
       by_cases hland : z ≤ 5 ∧ |vz| < 2 <;>
       simp [chainV1, h2, h3, hd, hz200, hland, FlightPhase.rank])

theorem simTV1_ge (now : ℕ) (st : SimStateV1) (hle : st.last ≤ now) :
    tAtV1 st ≤ simTV1 now st := by
  unfold tAtV1 simTV1
  have : (st.last : ℝ) ≤ (now : ℝ) := by exact_mod_cast hle
  apply div_le_div_of_nonneg_right ?_ (by norm_num)
  linarith

theorem refV1_of_not_burnout (now : ℕ) (st : SimStateV1)
    (h : simChainV1 now st ≠ .burnout) :
    refV1 now st = simChainV1 now st ∧ latchV1 now st = st.apogeeReached := by
  have hov : ¬ overrideV1 now st := fun hc => h hc.2.2
  unfold refV1 latchV1
  rw [if_neg hov, if_neg hov]
  exact ⟨rfl, rfl⟩

theorem rank_le_three (p : FlightPhase) (h : p.rank ≤ 2) :
    p.rank ≤ FlightPhase.apogee.rank := by
  have h3 : FlightPhase.apogee.rank = 3 := rfl
  omega

theorem stepV1_core (st : SimStateV1) (now : ℕ) (hinv : SimInvV1 st)
    (hle : st.last ≤ now) :
    st.phase.rank ≤ (refV1 now st).rank ∧
    (refV1 now st = .poweredAscent → 2 ≤ simTV1 now st ∧ simTV1 now st < 2 + 13/2) ∧
    (refV1 now st = .burnout → 2 + 13/2 ≤ simTV1 now st ∧ latchV1 now st = false) ∧
    (latchV1 now st = true → 2 + 13/2 ≤ simTV1 now st) ∧
    ((refV1 now st = .apogee ∨ refV1 now st = .drogueDeploy ∨
       refV1 now st = .mainDeploy ∨ refV1 now st = .landed) →
      latchV1 now st = true ∧ 2 + 13/2 ≤ simTV1 now st) ∧
    (st.phase = .landed → refV1 now st = .landed) := by
  have ht' := simTV1_ge now st hle
  -- Step 1: track down the decided phase and override status in every case.
  -- Unlatched states at coast time turn into burnout, possibly overridden
  -- to apogee; latched states follow the forward cascade.
  by_cases hlatch : st.apogeeReached = true
  · -- latch already set: override cannot fire
    have h85 : 2 + 13/2 ≤ tAtV1 st := hinv.latchT hlatch
    have hT85 : 2 + 13/2 ≤ simTV1 now st := le_trans h85 ht'
    have ht36 : ¬ simTV1 now st < 2 + 13/2 := not_lt.mpr hT85
    have ht2 : ¬ simTV1 now st < 2 := by intro h; apply ht36; linarith
    by_cases hps : st.phase = .apogee ∨ st.phase = .drogueDeploy ∨
        st.phase = .mainDeploy ∨ st.phase = .landed
    · have hch := chainV1_from_latched (simTV1 now st) st.vz st.z st.phase hps ht2 ht36
      have hchain : simChainV1 now st = chainV1 (simTV1 now st) st.vz st.z st.phase true := by
        unfold simChainV1
        rw [hlatch]
      obtain ⟨href, hl2⟩ := refV1_of_not_burnout now st (by rw [hchain]; exact hch.2.1)
      rw [href, hchain]
      refine ⟨hch.1, ?_, ?_, fun _ => hT85, fun _ => ⟨by rw [hl2]; exact hlatch, hT85⟩, ?_⟩
      · intro h
        rcases hch.2.2.2 with h4 | h4 | h4 | h4 <;> rw [h4] at h <;> cases h
      · intro h
        rcases hch.2.2.2 with h4 | h4 | h4 | h4 <;> rw [h4] at h <;> cases h
      · intro h
        exact hch.2.2.1 h
    · -- latched but still labelled pre-flight (powered-ascent is impossible:
      -- its decision time contradicts the latch time)
      have hpp : st.phase = .preFlight ∨ st.phase = .poweredAscent := by
        push_neg at hps
        cases h7 : st.phase
        · exact Or.inl rfl
        · exact Or.inr rfl
        · exact absurd (hinv.burnoutT h7).2 (by rw [hlatch]; simp)
        · exact absurd h7 hps.1
        · exact absurd h7 hps.2.1
        · exact absurd h7 hps.2.2.1
        · exact absurd h7 hps.2.2.2
      have hppre : st.phase = .preFlight := by
        rcases hpp with hpp | hpp
        · exact hpp
        · exact absurd (hinv.poweredT hpp).2 (by push_neg; linarith)
      have hchain : simChainV1 now st = .preFlight := by
        simp [simChainV1, chainV1, hlatch, hppre, ht2, ht36]
      obtain ⟨href, hl2⟩ := refV1_of_not_burnout now st (by rw [hchain]; simp)
      rw [href, hchain, hl2, hppre]
      refine ⟨le_refl _, ?_, ?_, fun _ => hT85, ?_, ?_⟩
      · intro h; cases h
      · intro h; cases h
      · intro h; rcases h with h | h | h | h <;> cases h
      · intro h; cases h
  · -- latch not yet set
    have hlf : st.apogeeReached = false := by
      cases h : st.apogeeReached
      · rfl
      · exact absurd h hlatch
    have hnotlatched : ¬ (st.phase = .apogee ∨ st.phase = .drogueDeploy ∨
        st.phase = .mainDeploy ∨ st.phase = .landed) := by
      intro h
      exact absurd (hinv.latchPhases h).1 (by rw [hlf]; simp)
    have hrk : st.phase.rank ≤ 2 := by
      push_neg at hnotlatched
      obtain ⟨h1, h2, h3, h4⟩ := hnotlatched
      cases hps : st.phase <;> simp_all [FlightPhase.rank]
    have hlandne : st.phase ≠ .landed := by
      push_neg at hnotlatched
      exact hnotlatched.2.2.2
    rcases lt_or_le (simTV1 now st) 2 with hT | hT2
    · -- still before ignition
      have hchain : simChainV1 now st = .preFlight := by
        unfold simChainV1
        exact chainV1_pre _ _ _ _ _ hT
      obtain ⟨href, hl2⟩ := refV1_of_not_burnout now st (by rw [hchain]; simp)
      rw [href, hchain, hl2, hlf]
      have hpre : st.phase = .preFlight := by
        rcases hps : st.phase with _ | _ | _ | _ | _ | _ | _
        · rfl
        · exact absurd hT (by push_neg; linarith [(hinv.poweredT hps).1, ht'])
        · exact absurd hT (by push_neg; linarith [(hinv.burnoutT hps).1, ht'])
        · exact absurd (hinv.latchPhases (Or.inl hps)).1 (by rw [hlf]; simp)
        · exact absurd (hinv.latchPhases (Or.inr (Or.inl hps))).1 (by rw [hlf]; simp)
        · exact absurd (hinv.latchPhases (Or.inr (Or.inr (Or.inl hps)))).1
            (by rw [hlf]; simp)
        · exact absurd (hinv.latchPhases (Or.inr (Or.inr (Or.inr hps)))).1
            (by rw [hlf]; simp)
      rw [hpre]
      refine ⟨le_refl _, ?_, ?_, ?_, ?_, ?_⟩
      · intro h; cases h
      · intro h; cases h
      · intro h; cases h
      · intro h; rcases h with h | h | h | h <;> cases h
      · intro h; cases h
    · rcases lt_or_le (simTV1 now st) (2 + 13/2) with hT36 | hT36
      · -- boost window
        have hchain : simChainV1 now st = .poweredAscent := by
          unfold simChainV1
          exact chainV1_powered _ _ _ _ _ hT2 hT36
        obtain ⟨href, hl2⟩ := refV1_of_not_burnout now st (by rw [hchain]; simp)
        rw [href, hchain, hl2, hlf]
        have hrk1 : st.phase.rank ≤ 1 := by
          rcases hps : st.phase with _ | _ | _ | _ | _ | _ | _ <;>
            first
              | (simp [FlightPhase.rank]; done)
              | (exact absurd hT36 (by push_neg; linarith [(hinv.burnoutT hps).1, ht']))
              | (exact absurd (hinv.latchPhases (by rw [hps]; tauto)).1 (by rw [hlf]; simp))
        refine ⟨by have : FlightPhase.poweredAscent.rank = 1 := rfl; omega,
          fun _ => ⟨hT2, hT36⟩, ?_, ?_, ?_, fun h => absurd h hlandne⟩
        · intro h; cases h
        · intro h; cases h
        · intro h; rcases h with h | h | h | h <;> cases h
      · -- coast time, latch not set: burnout, possibly overridden to apogee
        have hchain : simChainV1 now st = .burnout := by
          unfold simChainV1
          rw [hlf]
          exact chainV1_burnout _ _ _ _ (not_lt.mpr hT2) (not_lt.mpr hT36)
        by_cases hov : overrideV1 now st
        · have href : refV1 now st = .apogee := by unfold refV1; rw [if_pos hov]
          have hl2 : latchV1 now st = true := by unfold latchV1; rw [if_pos hov]
          rw [href, hl2]
          refine ⟨rank_le_three _ hrk, ?_, ?_, fun _ => hT36, fun _ => ⟨rfl, hT36⟩,
            fun h => absurd h hlandne⟩
          · intro h; cases h
          · intro h; cases h
        · have href : refV1 now st = .burnout := by
            unfold refV1
            rw [if_neg hov]
            exact hchain
          have hl2 : latchV1 now st = st.apogeeReached := by
            unfold latchV1
            rw [if_neg hov]
          rw [href, hl2, hlf]
          refine ⟨by have : FlightPhase.burnout.rank = 2 := rfl; omega,
            ?_, fun _ => ⟨hT36, rfl⟩, ?_, ?_, fun h => absurd h hlandne⟩
          · intro h; cases h
          · intro h; cases h
          · intro h; rcases h with h | h | h | h <;> cases h

theorem stepV1_inv (st : SimStateV1) (now : ℕ) (hinv : SimInvV1 st)
    (hle : st.last ≤ now) :
    SimInvV1 (stepSimV1 now st).1 := by
  obtain ⟨c1, c2, c3, c4, c5, c6⟩ := stepV1_core st now hinv hle
  have h0 : st.t0 ≠ 0 := by have := hinv.t0pos; omega
  have hflagL : st.landedFlag = true → refV1 now st = .landed := fun hf =>
    c6 (hinv.flagPhase hf)
  unfold stepSimV1
  rw [if_neg h0]
  by_cases hL : refV1 now st = .landed
  · rw [if_pos hL]
    by_cases hf : st.landedFlag = false
    · rw [if_pos hf]
      exact ⟨hinv.t0pos, le_trans hinv.lastGe hle, c2, c3, c4, c5,
        fun _ => hL, fun _ => rfl, fun _ => rfl⟩
    · rw [if_neg hf]
      have hft : st.landedFlag = true := by
        cases hfl : st.landedFlag
        · exact absurd hfl hf
        · rfl
      exact ⟨hinv.t0pos, le_trans hinv.lastGe hle, c2, c3, c4, c5,
        fun _ => hL, fun _ => hft, fun _ => hinv.flagStop hft⟩
  · rw [if_neg hL]
    exact ⟨hinv.t0pos, le_trans hinv.lastGe hle, c2, c3, c4, c5,
      fun hf => absurd (hflagL hf) hL, fun hp => absurd hp hL,
      fun hf => hinv.flagStop hf⟩

theorem stepV1_phase (st : SimStateV1) (now : ℕ) (h0 : st.t0 ≠ 0) :
    (stepSimV1 now st).1.phase = refV1 now st := by
  unfold stepSimV1
  rw [if_neg h0]
  split_ifs <;> rfl

theorem stepV1_last (st : SimStateV1) (now : ℕ) (h0 : st.t0 ≠ 0) :
    (stepSimV1 now st).1.last = now := by
  unfold stepSimV1
  rw [if_neg h0]
  split_ifs <;> rfl

theorem stepV1_emit_eq (st : SimStateV1) (now : ℕ) (h0 : st.t0 ≠ 0) (q : FlightPhase)
    (h : (stepSimV1 now st).2 = some q) :
    q = refV1 now st := by
  unfold stepSimV1 at h
  rw [if_neg h0] at h
  split_ifs at h with hL hf
  · rw [hL]
    exact (Option.some_inj.mp h).symm
  · exact (Option.some_inj.mp h).symm

theorem stepV1_flag_none (st : SimStateV1) (now : ℕ) (hinv : SimInvV1 st)
    (hle : st.last ≤ now) (hf : st.landedFlag = true) :
    (stepSimV1 now st).2 = none ∧ (stepSimV1 now st).1.landedFlag = true := by
  have h0 : st.t0 ≠ 0 := by have := hinv.t0pos; omega
  have hL : refV1 now st = .landed :=
    (stepV1_core st now hinv hle).2.2.2.2.2 (hinv.flagPhase hf)
  unfold stepSimV1
  rw [if_neg h0, if_pos hL, if_neg (by rw [hf]; simp)]
  exact ⟨rfl, hf⟩

theorem stepV1_emit_landed (st : SimStateV1) (now : ℕ) (h0 : st.t0 ≠ 0)
    (h : (stepSimV1 now st).2 = some .landed) :
    st.landedFlag = false ∧ (stepSimV1 now st).1.landedFlag = true := by
  unfold stepSimV1 at h ⊢
  rw [if_neg h0] at h ⊢
  split_ifs at h with hL hf
  · rw [if_pos hL, if_pos hf]
    exact ⟨hf, rfl⟩
  · exact absurd (Option.some_inj.mp h) hL

theorem stepV1_flag_preserved (st : SimStateV1) (now : ℕ) (h0 : st.t0 ≠ 0)
    (hf : st.landedFlag = false) (hne : (stepSimV1 now st).2 ≠ some .landed) :
    (stepSimV1 now st).1.landedFlag = false := by
  unfold stepSimV1 at hne ⊢
  rw [if_neg h0] at hne ⊢
  split_ifs at hne ⊢ with hL
  · exact absurd rfl hne
  · exact hf

theorem stepV1_emit_some_of_flag (st : SimStateV1) (now : ℕ) (h0 : st.t0 ≠ 0)
    (hf : st.landedFlag = false) :
    (stepSimV1 now st).2 = some (refV1 now st) := by
  unfold stepSimV1
  rw [if_neg h0]
  split_ifs with hL
  · rw [hL]
  · rfl

theorem runSimV1_cons (st : SimStateV1) (now : ℕ) (rest : List ℕ) :
    runSimV1 st (now :: rest) =
      ((runSimV1 (stepSimV1 now st).1 rest).1,
       (stepSimV1 now st).2.toList ++ (runSimV1 (stepSimV1 now st).1 rest).2) := by
  simp [runSimV1]

/-- Forward movement along the nominal phase order. -/
def forwardOnly (p q : FlightPhase) : Prop := p.rank ≤ q.rank

theorem runSimV1_aux (times : List ℕ) :
    ∀ st : SimStateV1, SimInvV1 st → List.Chain (· ≤ ·) st.last times →
      (∀ y ∈ (runSimV1 st times).2.head?, forwardOnly st.phase y) ∧
      List.Chain' forwardOnly (runSimV1 st times).2 ∧
      (st.landedFlag = true → (runSimV1 st times).2 = []) ∧
      (runSimV1 st times).2.count .landed ≤ 1 ∧
      (∀ l₁ l₂, (runSimV1 st times).2 = l₁ ++ .landed :: l₂ → l₂ = []) ∧
      ((runSimV1 st times).1.landedFlag = true →
        st.landedFlag = true ∨ FlightPhase.landed ∈ (runSimV1 st times).2) ∧
      SimInvV1 (runSimV1 st times).1 := by
  induction times with
  | nil =>
    intro st hinv _
    refine ⟨by simp [runSimV1], by simp [runSimV1], fun _ => rfl,
      by simp [runSimV1], ?_, fun h => Or.inl h, hinv⟩
    intro l₁ l₂ heq
    simp [runSimV1] at heq
  | cons now rest ih =>
    intro st hinv hch
    have h0 : st.t0 ≠ 0 := by have := hinv.t0pos; omega
    rw [List.chain_cons] at hch
    obtain ⟨hle, hch'⟩ := hch
    have hinv1 : SimInvV1 (stepSimV1 now st).1 := stepV1_inv st now hinv hle
    have hch1 : List.Chain (· ≤ ·) (stepSimV1 now st).1.last rest := by
      rw [stepV1_last st now h0]; exact hch'
    obtain ⟨q1, q2, q3, q4, q5, q6, q7⟩ := ih (stepSimV1 now st).1 hinv1 hch1
    rw [runSimV1_cons]
    by_cases hf : st.landedFlag = true
    · obtain ⟨hnone, hflag1⟩ := stepV1_flag_none st now hinv hle hf
      have hrest : (runSimV1 (stepSimV1 now st).1 rest).2 = [] := q3 hflag1
      rw [hnone, hrest]
      refine ⟨by simp, by simp, fun _ => rfl, by simp, ?_, fun _ => Or.inl hf, q7⟩
      intro l₁ l₂ heq
      simp only [Option.toList_none, List.nil_append] at heq
      exact absurd heq.symm (by simp [List.append_eq_nil])
    · have hf0 : st.landedFlag = false := by
        cases hfl : st.landedFlag
        · rfl
        · exact absurd hfl hf
      have hemit := stepV1_emit_some_of_flag st now h0 hf0
      have hphase1 : (stepSimV1 now st).1.phase = refV1 now st := stepV1_phase st now h0
      have hfwd : forwardOnly st.phase (refV1 now st) :=
        (stepV1_core st now hinv hle).1
      rw [hemit]
      simp only [Option.toList_some, List.singleton_append]
      constructor
      · intro y hy
        simp only [List.head?_cons, Option.mem_some_iff] at hy
        rw [← hy]
        exact hfwd
      constructor
      · rw [List.chain'_cons']
        refine ⟨fun y hy => ?_, q2⟩
        have := q1 y hy
        rw [hphase1] at this
        exact this
      constructor
      · intro h
        exact absurd h (by rw [hf0]; simp)
      constructor
      · by_cases hq : refV1 now st = .landed
        · have hland := stepV1_emit_landed st now h0 (by rw [hemit, hq])
          have hrest : (runSimV1 (stepSimV1 now st).1 rest).2 = [] := q3 hland.2
          rw [hq, hrest]
          simp
        · rw [List.count_cons]
          have hb : (refV1 now st == FlightPhase.landed) = false := by
            simp [hq]
          rw [hb]
          simpa using q4
      constructor
      · intro l₁ l₂ heq
        rcases l₁ with _ | ⟨a, l₁⟩
        · simp only [List.nil_append, List.cons_eq_cons] at heq
          obtain ⟨hq, hrest⟩ := heq
          have hland := stepV1_emit_landed st now h0 (by rw [hemit, hq])
          have : (runSimV1 (stepSimV1 now st).1 rest).2 = [] := q3 hland.2
          rw [this] at hrest
          exact hrest.symm
        · simp only [List.cons_append, List.cons_eq_cons] at heq
          exact q5 l₁ l₂ heq.2
      constructor
      · intro hfl
        rcases q6 hfl with h1 | h2
        · by_cases hq : refV1 now st = .landed
          · exact Or.inr (by rw [hq]; exact List.mem_cons_self _ _)
          · exfalso
            have := stepV1_flag_preserved st now h0 hf0
              (by rw [hemit]; intro hcon; exact hq (Option.some_inj.mp hcon))
            rw [this] at h1
            cases h1
        · exact Or.inr (List.mem_cons_of_mem _ h2)
      · exact q7

theorem initStepV1_state (now : ℕ) :
    stepSimV1 now initSimStateV1 =
      ({ initSimStateV1 with t0 := now, last := now }, none) := by
  unfold stepSimV1
  rw [if_pos (show initSimStateV1.t0 = 0 from rfl)]

theorem initStepV1_inv (now : ℕ) (hpos : 0 < now) :
    SimInvV1 { initSimStateV1 with t0 := now, last := now } := by
  refine ⟨hpos, le_refl _, ?_, ?_, ?_, ?_, ?_, ?_, ?_⟩ <;>
    intro h <;> simp [initSimStateV1] at h

theorem runSimV1_session (times : List ℕ) (hpos : ∀ x ∈ times, 0 < x)
    (hch : List.Chain' (· ≤ ·) times) :
    List.Chain' forwardOnly (emittedV1 times) ∧
    (emittedV1 times).count .landed ≤ 1 ∧
    (∀ l₁ l₂, emittedV1 times = l₁ ++ .landed :: l₂ → l₂ = []) ∧
    ((runSimV1 initSimStateV1 times).1.phase = .landed →
      (emittedV1 times).count .landed = 1 ∧
      (runSimV1 initSimStateV1 times).1.stopScheduled = true) := by
  cases times with
  | nil =>
    refine ⟨by simp [emittedV1, runSimV1], by simp [emittedV1, runSimV1], ?_, ?_⟩
    · intro l₁ l₂ heq
      simp [emittedV1, runSimV1] at heq
    · intro h
      exact absurd h (by simp [runSimV1, initSimStateV1])
  | cons now rest =>
    have hnow : 0 < now := hpos now (List.mem_cons_self _ _)
    have hinv1 : SimInvV1 { initSimStateV1 with t0 := now, last := now } :=
      initStepV1_inv now hnow
    have hch1 : List.Chain (· ≤ ·)
        ({ initSimStateV1 with t0 := now, last := now } : SimStateV1).last rest := hch
    obtain ⟨q1, q2, q3, q4, q5, q6, q7⟩ := runSimV1_aux rest _ hinv1 hch1
    have hrw : emittedV1 (now :: rest) =
        (runSimV1 { initSimStateV1 with t0 := now, last := now } rest).2 := by
      unfold emittedV1
      rw [runSimV1_cons, initStepV1_state]
      simp
    have hfinal : (runSimV1 initSimStateV1 (now :: rest)).1 =
        (runSimV1 { initSimStateV1 with t0 := now, last := now } rest).1 := by
      rw [runSimV1_cons, initStepV1_state]
    refine ⟨by rw [hrw]; exact q2, by rw [hrw]; exact q4, ?_, ?_⟩
    · intro l₁ l₂ heq
      rw [hrw] at heq
      exact q5 l₁ l₂ heq
    · intro hphase
      rw [hfinal] at hphase
      have hflag := q7.phaseFlag hphase
      have hmem : FlightPhase.landed ∈
          (runSimV1 { initSimStateV1 with t0 := now, last := now } rest).2 := by
        rcases q6 hflag with h1 | h2
        · exact absurd h1 (by simp [initSimStateV1])
        · exact h2
      constructor
      · rw [hrw]
        have hp1 : 0 < (runSimV1 { initSimStateV1 with t0 := now, last := now } rest).2.count
            FlightPhase.landed := List.count_pos_iff.mpr hmem
        omega
      · rw [hfinal]
        exact q7.flagStop hflag

/-- C1 (amended): for every simulator session (tick times positive and
non-decreasing, as `Date.now()` produces), the flight phase carried by
successively emitted packets transitions only forward along the order
pre-flight, powered-ascent, burnout, apogee, drogue-deploy, main-deploy,
landed, with exactly one backward transition allowed in the canonical
(integrate-first) simulator: burnout may be re-entered from apogee, at
most once per session, governed by the "apogee reached" latch (at most one
packet per session carries the apogee phase).  The early-decision variant
never moves backward at all. -/
theorem spec_phase_forward_with_apogee_exception :
    (∀ times : List ℕ, (∀ x ∈ times, 0 < x) → List.Chain' (· ≤ ·) times →
      List.Chain' amendedAllowed (emittedV2 times) ∧
      (emittedV2 times).count .apogee ≤ 1) ∧
    (∀ times : List ℕ, (∀ x ∈ times, 0 < x) → List.Chain' (· ≤ ·) times →
      List.Chain' forwardOnly (emittedV1 times)) := by
  constructor
  · intro times hpos hch
    obtain ⟨h1, h2, _⟩ := runSimV2_session times hpos hch
    exact ⟨h1, h2⟩
  · intro times hpos hch
    exact (runSimV1_session times hpos hch).1

/-- C1 witness: the amended theorem applied to the concrete two-tick
session `[100, 150]` of both simulator variants. -/
theorem spec_phase_forward_with_apogee_exception_witness :
    ((∀ x ∈ [100, 150], 0 < x) ∧ List.Chain' (· ≤ ·) ([100, 150] : List ℕ)) ∧
    (List.Chain' amendedAllowed (emittedV2 [100, 150]) ∧
      (emittedV2 [100, 150]).count .apogee ≤ 1) ∧
    List.Chain' forwardOnly (emittedV1 [100, 150]) :=
  ⟨⟨by decide, by norm_num [List.chain'_cons, List.chain'_singleton]⟩,
   spec_phase_forward_with_apogee_exception.1 [100, 150] (by decide)
     (by norm_num [List.chain'_cons, List.chain'_singleton]),
   spec_phase_forward_with_apogee_exception.2 [100, 150] (by decide)
     (by norm_num [List.chain'_cons, List.chain'_singleton])⟩

/-- C9: in every session of either simulator variant, at most one packet
with phase `landed` is added to the store, nothing is emitted by any tick
after it (the landed packet, if any, is the last emission), reaching the
`landed` phase means exactly one landed packet was pushed and the stop
timeout has been scheduled, and the scheduled grace-delay callback clears
the tick interval and sets the simulating and connected flags to false. -/
theorem spec_sim_landed_single_final_packet :
    (∀ times : List ℕ, (∀ x ∈ times, 0 < x) → List.Chain' (· ≤ ·) times →
      (emittedV2 times).count .landed ≤ 1 ∧
      (∀ l₁ l₂, emittedV2 times = l₁ ++ .landed :: l₂ → l₂ = []) ∧
      ((runSimV2 initSimState times).1.phase = .landed →
        (emittedV2 times).count .landed = 1 ∧
        (runSimV2 initSimState times).1.stopScheduled = true)) ∧
    (∀ times : List ℕ, (∀ x ∈ times, 0 < x) → List.Chain' (· ≤ ·) times →
      (emittedV1 times).count .landed ≤ 1 ∧
      (∀ l₁ l₂, emittedV1 times = l₁ ++ .landed :: l₂ → l₂ = []) ∧
      ((runSimV1 initSimStateV1 times).1.phase = .landed →
        (emittedV1 times).count .landed = 1 ∧
        (runSimV1 initSimStateV1 times).1.stopScheduled = true)) ∧
    (∀ (now : ℕ) (s : StoreState),
      (simStopCallback now s).1 = false ∧
      (simStopCallback now s).2.isSimulating = false ∧
      (simStopCallback now s).2.isConnected = false) := by
  refine ⟨?_, ?_, ?_⟩
  · intro times hpos hch
    obtain ⟨_, _, h3, h4, h5⟩ := runSimV2_session times hpos hch
    exact ⟨h3, h4, h5⟩
  · intro times hpos hch
    obtain ⟨_, h2, h3, h4⟩ := runSimV1_session times hpos hch
    exact ⟨h2, h3, h4⟩
  · intro now s
    exact ⟨rfl, rfl, rfl⟩

/-- C9 witness: the theorem applied to the concrete session `[100, 150]`
of both variants and to a concrete stop-callback invocation. -/
theorem spec_sim_landed_single_final_packet_witness :
    ((∀ x ∈ [100, 150], 0 < x) ∧ List.Chain' (· ≤ ·) ([100, 150] : List ℕ)) ∧
    (emittedV2 [100, 150]).count .landed ≤ 1 ∧
    (emittedV1 [100, 150]).count .landed ≤ 1 ∧
    (simStopCallback 7 initialStore).2.isSimulating = false :=
  ⟨⟨by decide, by norm_num [List.chain'_cons, List.chain'_singleton]⟩,
   (spec_sim_landed_single_final_packet.1 [100, 150] (by decide)
     (by norm_num [List.chain'_cons, List.chain'_singleton])).1,
   (spec_sim_landed_single_final_packet.2.1 [100, 150] (by decide)
     (by norm_num [List.chain'_cons, List.chain'_singleton])).1,
   (spec_sim_landed_single_final_packet.2.2 7 initialStore).2.1⟩

/-! ## A concrete session of the canonical simulator

A nominal uniform-50 ms session (`Date.now()` starting at 100000 ms,
one tick per 50 ms), used to exhibit the backward transition the canonical
simulator actually performs: the packet carrying `apogee` is followed by a
packet carrying `burnout` (descent above the drogue altitude). -/

/-- Tick times of the nominal session: one tick every 50 ms from
`t = 100000` ms on. -/
def uniformTicks (n : ℕ) : List ℕ :=
  (List.range n).map (fun k => 100000 + 50 * k)

/-- The simulator state after the first `n` ticks of the uniform session. -/
def simAfter (n : ℕ) : SimState :=
  (runSimV2 initSimState (uniformTicks n)).1

/-- The projections of a simulator state that the tick dynamics feed back
into themselves (the horizontal components never influence them). -/
def simProj (st : SimState) (z vz : ℚ) (ph : FlightPhase) (latch : Bool)
    (last : ℕ) : Prop :=
  st.z = z ∧ st.vz = vz ∧ st.phase = ph ∧ st.apogeeReached = latch ∧
  st.landedFlag = false ∧ st.stopScheduled = false ∧
  st.t0 = 100000 ∧ st.last = last

/-- One 50 ms step of the vertical velocity in the coast phases
(`burnout` / `apogee` branch of `integrateV2` with `dt = 1/20`). -/
def coastVstep (v : ℚ) : ℚ :=
  v + (-(981/100) - signQ v * (6/100000) * (|v| * |v|)) * (1/20)

/-- Vertical velocity during the coast of the uniform session, indexed
from the state after tick 72 (the last powered tick). -/
def coastV : ℕ → ℚ
  | 0 => 24438/125
  | n + 1 => coastVstep (coastV n)

/-- Altitude during the coast of the uniform session. -/
def coastZ : ℕ → ℚ
  | 0 => 403227/2500
  | n + 1 => coastZ n + coastVstep (coastV n) * (1/20)

/-- The transition relation between the phases of successively emitted
packets exactly as claim C1 states it: forward along the nominal order,
with re-entry of `apogee` from `burnout` as the only backward move. -/
def claimC1Allowed (p q : FlightPhase) : Prop :=
  p.rank ≤ q.rank ∨ (p = .burnout ∧ q = .apogee)

theorem coastV_succ (n : ℕ) : coastV (n + 1) = coastVstep (coastV n) := rfl

theorem coastZ_succ (n : ℕ) :
    coastZ (n + 1) = coastZ n + coastVstep (coastV n) * (1/20) := rfl

theorem runSimV2_append (l1 l2 : List ℕ) : ∀ st : SimState,
    runSimV2 st (l1 ++ l2) =
      ((runSimV2 (runSimV2 st l1).1 l2).1,
       (runSimV2 st l1).2 ++ (runSimV2 (runSimV2 st l1).1 l2).2) := by
  induction l1 with
  | nil => intro st; simp [runSimV2]
  | cons a l ih => intro st; simp [runSimV2_cons, ih, List.append_assoc]

theorem runSimV2_append_fst (l1 l2 : List ℕ) (st : SimState) :
    (runSimV2 st (l1 ++ l2)).1 = (runSimV2 (runSimV2 st l1).1 l2).1 := by
  rw [runSimV2_append]

theorem runSimV2_append_snd (l1 l2 : List ℕ) (st : SimState) :
    (runSimV2 st (l1 ++ l2)).2 =
      (runSimV2 st l1).2 ++ (runSimV2 (runSimV2 st l1).1 l2).2 := by
  rw [runSimV2_append]

theorem uniformTicks_add (a b : ℕ) :
    uniformTicks (a + b) =
      uniformTicks a ++ (List.range b).map (fun k => 100000 + 50 * (a + k)) := by
  simp [uniformTicks, List.range_add, List.map_map]

theorem uniformTicks_succ (n : ℕ) :
    uniformTicks (n + 1) = uniformTicks n ++ [100000 + 50 * n] := by
  simp [uniformTicks, List.range_succ]

theorem simAfter_succ (n : ℕ) :
    simAfter (n + 1) = (stepSimV2 (100000 + 50 * n) (simAfter n)).1 := by
  simp [simAfter, uniformTicks_succ, runSimV2_append, runSimV2, runSimV2_cons]

theorem simDt_50 (now : ℕ) (st : SimState) (h : now = st.last + 50) :
    simDt now st = 1/20 := by
  subst h
  unfold simDt
  push_cast
  norm_num

theorem simT_100000 (now : ℕ) (st : SimState) (h : st.t0 = 100000) :
    simT now st = ((now : ℚ) - 100000) / 1000 := by
  unfold simT
  rw [h]
  norm_num

theorem decidePhaseV2_pre_eq (t z vz : ℚ) (l : Bool) (ht : t < 2) :
    decidePhaseV2 t z vz l = (.preFlight, l) := by
  unfold decidePhaseV2
  rw [if_pos ht]

theorem decidePhaseV2_pow_eq (t z vz : ℚ) (l : Bool) (ht2 : ¬ t < 2)
    (ht36 : t < 2 + 8/5) :
    decidePhaseV2 t z vz l = (.poweredAscent, l) := by
  unfold decidePhaseV2
  rw [if_neg ht2, if_pos ht36]

theorem decidePhaseV2_coast_burnout (t z vz : ℚ) (ht2 : ¬ t < 2)
    (ht36 : ¬ t < 2 + 8/5) (hz : 5 < z) (hv : 0 < vz) :
    decidePhaseV2 t z vz false = (.burnout, false) := by
  unfold decidePhaseV2
  rw [if_neg ht2, if_neg ht36,
    if_neg (show ¬ (z ≤ 5 ∧ |vz| < 2) from fun h => absurd h.1 (by linarith)),
    if_neg (show ¬ ((false : Bool) = false ∧ vz ≤ 0) from fun h => absurd h.2 (by linarith)),
    if_neg (show ¬ ((false : Bool) = true ∧ vz < 0) from fun h => by simp at h)]

theorem decidePhaseV2_coast_apogee (t z vz : ℚ) (ht2 : ¬ t < 2)
    (ht36 : ¬ t < 2 + 8/5) (hz : 5 < z) (hv : vz ≤ 0) :
    decidePhaseV2 t z vz false = (.apogee, true) := by
  unfold decidePhaseV2
  rw [if_neg ht2, if_neg ht36,
    if_neg (show ¬ (z ≤ 5 ∧ |vz| < 2) from fun h => absurd h.1 (by linarith)),
    if_pos (show (false : Bool) = false ∧ vz ≤ 0 from ⟨rfl, hv⟩)]

theorem decidePhaseV2_coast_reburn (t z vz : ℚ) (ht2 : ¬ t < 2)
    (ht36 : ¬ t < 2 + 8/5) (hz : 5 < z) (hv : vz < 0) (hz6 : 600 < z) :
    decidePhaseV2 t z vz true = (.burnout, true) := by
  unfold decidePhaseV2
  rw [if_neg ht2, if_neg ht36,
    if_neg (show ¬ (z ≤ 5 ∧ |vz| < 2) from fun h => absurd h.1 (by linarith)),
    if_neg (show ¬ ((true : Bool) = false ∧ vz ≤ 0) from fun h => by simp at h),
    if_pos (show (true : Bool) = true ∧ vz < 0 from ⟨rfl, hv⟩),
    if_pos hz6]

theorem integrateV2_ground (st : SimState) (hp : st.phase = .preFlight)
    (hz : st.z = 0) (hvz : st.vz = 0) :
    (integrateV2 (1/20) st).z = 0 ∧ (integrateV2 (1/20) st).vz = 0 := by
  have hproj : (integrateV2 (1/20) st).vz =
      (if st.z + (st.vz + (-(981/100)) * (1/20)) * (1/20) < 0 then 0
       else st.vz + (-(981/100)) * (1/20)) ∧
      (integrateV2 (1/20) st).z =
      (if st.z + (st.vz + (-(981/100)) * (1/20)) * (1/20) < 0 then 0
       else st.z + (st.vz + (-(981/100)) * (1/20)) * (1/20)) := by
    constructor <;> simp [integrateV2, hp]
  obtain ⟨hv, hzz⟩ := hproj
  rw [hv, hzz, hz, hvz]
  norm_num

theorem integrateV2_powered (st : SimState) (hp : st.phase = .poweredAscent)
    (hz : 0 ≤ st.z) (hvz : 0 ≤ st.vz) :
    (integrateV2 (1/20) st).vz = st.vz + 12219/2000 ∧
    (integrateV2 (1/20) st).z = st.z + (st.vz + 12219/2000) * (1/20) := by
  have hproj : (integrateV2 (1/20) st).vz =
      (if st.z + (st.vz + (-(981/100) + 132) * (1/20)) * (1/20) < 0 then 0
       else st.vz + (-(981/100) + 132) * (1/20)) ∧
      (integrateV2 (1/20) st).z =
      (if st.z + (st.vz + (-(981/100) + 132) * (1/20)) * (1/20) < 0 then 0
       else st.z + (st.vz + (-(981/100) + 132) * (1/20)) * (1/20)) := by
    constructor <;> simp [integrateV2, hp]
  obtain ⟨hv, hzz⟩ := hproj
  have hcl : ¬ st.z + (st.vz + (-(981/100) + 132) * (1/20)) * (1/20) < 0 := by
    push_neg
    nlinarith
  rw [hv, hzz, if_neg hcl, if_neg hcl]
  norm_num

theorem integrateV2_coast (st : SimState)
    (hp : st.phase = .burnout ∨ st.phase = .apogee)
    (hcl : ¬ st.z + coastVstep st.vz * (1/20) < 0) :
    (integrateV2 (1/20) st).vz = coastVstep st.vz ∧
    (integrateV2 (1/20) st).z = st.z + coastVstep st.vz * (1/20) := by
  have hproj : (integrateV2 (1/20) st).vz =
      (if st.z + (st.vz + (-(981/100) - signQ st.vz * (6/100000) * (|st.vz| * |st.vz|)) * (1/20)) * (1/20) < 0 then 0
       else st.vz + (-(981/100) - signQ st.vz * (6/100000) * (|st.vz| * |st.vz|)) * (1/20)) ∧
      (integrateV2 (1/20) st).z =
      (if st.z + (st.vz + (-(981/100) - signQ st.vz * (6/100000) * (|st.vz| * |st.vz|)) * (1/20)) * (1/20) < 0 then 0
       else st.z + (st.vz + (-(981/100) - signQ st.vz * (6/100000) * (|st.vz| * |st.vz|)) * (1/20)) * (1/20)) := by
    rcases hp with h | h <;> constructor <;> simp [integrateV2, h]
  obtain ⟨hv, hzz⟩ := hproj
  have e : st.vz + (-(981/100) - signQ st.vz * (6/100000) * (|st.vz| * |st.vz|)) * (1/20)
      = coastVstep st.vz := rfl
  rw [hv, hzz, e, if_neg hcl, if_neg hcl]
  exact ⟨rfl, rfl⟩

theorem stepV2_proj (st : SimState) (now : ℕ) (h0 : ¬ st.t0 = 0)
    (hnl : ¬ (simDecideV2 now st).1 = .landed) :
    (stepSimV2 now st).1.z = (integrateV2 (simDt now st) st).z ∧
    (stepSimV2 now st).1.vz = (integrateV2 (simDt now st) st).vz ∧
    (stepSimV2 now st).1.phase = (simDecideV2 now st).1 ∧
    (stepSimV2 now st).1.apogeeReached = (simDecideV2 now st).2 ∧
    (stepSimV2 now st).1.landedFlag = st.landedFlag ∧
    (stepSimV2 now st).1.stopScheduled = st.stopScheduled ∧
    (stepSimV2 now st).1.t0 = st.t0 ∧
    (stepSimV2 now st).1.last = now ∧
    (stepSimV2 now st).2 = some (simDecideV2 now st).1 := by
  unfold stepSimV2
  rw [if_neg h0, if_neg hnl]
  exact ⟨rfl, rfl, rfl, rfl, rfl, rfl, rfl, rfl, rfl⟩

theorem tick_t_coast (now : ℕ) (hge : 103600 ≤ now) :
    ¬ ((now : ℚ) - 100000) / 1000 < 2 ∧ ¬ ((now : ℚ) - 100000) / 1000 < 2 + 8/5 := by
  have hc : (103600 : ℚ) ≤ (now : ℚ) := by exact_mod_cast hge
  constructor <;> intro hlt <;> linarith

theorem stepV2_runPre (st : SimState) (now last : ℕ) (z v : ℚ)
    (hproj : simProj st z v .preFlight false last)
    (hz : z = 0) (hv : v = 0)
    (hnow : now = last + 50) (hup : now < 102000) :
    simProj (stepSimV2 now st).1 0 0 .preFlight false now := by
  subst hz hv
  obtain ⟨hz, hvz, hph, hla, hfl, hsp, ht0, hls⟩ := hproj
  have h0 : ¬ st.t0 = 0 := by rw [ht0]; norm_num
  have hdt : simDt now st = 1/20 := simDt_50 now st (by rw [hls]; exact hnow)
  obtain ⟨hiz, hiv⟩ := integrateV2_ground st hph hz hvz
  have hcn : (now : ℚ) < 102000 := by exact_mod_cast hup
  have ht : ((now : ℚ) - 100000) / 1000 < 2 := by linarith
  have hdec : simDecideV2 now st = (.preFlight, false) := by
    unfold simDecideV2
    rw [hdt, hiz, hiv, hla, simT_100000 now st ht0]
    exact decidePhaseV2_pre_eq _ _ _ _ ht
  have hnl : ¬ (simDecideV2 now st).1 = .landed := by rw [hdec]; simp
  obtain ⟨p1, p2, p3, p4, p5, p6, p7, p8, p9⟩ := stepV2_proj st now h0 hnl
  refine ⟨?_, ?_, ?_, ?_, ?_, ?_, ?_, p8⟩
  · rw [p1, hdt, hiz]
  · rw [p2, hdt, hiv]
  · rw [p3, hdec]
  · rw [p4, hdec]
  · rw [p5, hfl]
  · rw [p6, hsp]
  · rw [p7, ht0]

theorem stepV2_pre_to_pow (st : SimState) (now last : ℕ) (z v : ℚ)
    (hproj : simProj st z v .preFlight false last)
    (hz : z = 0) (hv : v = 0)
    (hnow : now = last + 50) (hlo : 102000 ≤ now) (hup : now < 103600) :
    simProj (stepSimV2 now st).1 0 0 .poweredAscent false now := by
  subst hz hv
  obtain ⟨hz, hvz, hph, hla, hfl, hsp, ht0, hls⟩ := hproj
  have h0 : ¬ st.t0 = 0 := by rw [ht0]; norm_num
  have hdt : simDt now st = 1/20 := simDt_50 now st (by rw [hls]; exact hnow)
  obtain ⟨hiz, hiv⟩ := integrateV2_ground st hph hz hvz
  have hcl : (102000 : ℚ) ≤ (now : ℚ) := by exact_mod_cast hlo
  have hcu : (now : ℚ) < 103600 := by exact_mod_cast hup
  have ht2 : ¬ ((now : ℚ) - 100000) / 1000 < 2 := by intro hlt; linarith
  have ht36 : ((now : ℚ) - 100000) / 1000 < 2 + 8/5 := by linarith
  have hdec : simDecideV2 now st = (.poweredAscent, false) := by
    unfold simDecideV2
    rw [hdt, hiz, hiv, hla, simT_100000 now st ht0]
    exact decidePhaseV2_pow_eq _ _ _ _ ht2 ht36
  have hnl : ¬ (simDecideV2 now st).1 = .landed := by rw [hdec]; simp
  obtain ⟨p1, p2, p3, p4, p5, p6, p7, p8, p9⟩ := stepV2_proj st now h0 hnl
  refine ⟨?_, ?_, ?_, ?_, ?_, ?_, ?_, p8⟩
  · rw [p1, hdt, hiz]
  · rw [p2, hdt, hiv]
  · rw [p3, hdec]
  · rw [p4, hdec]
  · rw [p5, hfl]
  · rw [p6, hsp]
  · rw [p7, ht0]

theorem stepV2_powStep (st : SimState) (now last : ℕ) (z v : ℚ)
    (hproj : simProj st z v .poweredAscent false last)
    (hz : 0 ≤ z) (hv : 0 ≤ v)
    (hnow : now = last + 50) (hlo : 102000 ≤ now) (hup : now < 103600) :
    simProj (stepSimV2 now st).1 (z + (v + 12219/2000) * (1/20)) (v + 12219/2000)
      .poweredAscent false now := by
  obtain ⟨hsz, hvz, hph, hla, hfl, hsp, ht0, hls⟩ := hproj
  have h0 : ¬ st.t0 = 0 := by rw [ht0]; norm_num
  have hdt : simDt now st = 1/20 := simDt_50 now st (by rw [hls]; exact hnow)
  obtain ⟨hiv, hiz⟩ := integrateV2_powered st hph (by rw [hsz]; exact hz) (by rw [hvz]; exact hv)
  have hcl : (102000 : ℚ) ≤ (now : ℚ) := by exact_mod_cast hlo
  have hcu : (now : ℚ) < 103600 := by exact_mod_cast hup
  have ht2 : ¬ ((now : ℚ) - 100000) / 1000 < 2 := by intro hlt; linarith
  have ht36 : ((now : ℚ) - 100000) / 1000 < 2 + 8/5 := by linarith
  have hdec : simDecideV2 now st = (.poweredAscent, false) := by
    unfold simDecideV2
    rw [hdt, hiz, hiv, hla, simT_100000 now st ht0]
    exact decidePhaseV2_pow_eq _ _ _ _ ht2 ht36
  have hnl : ¬ (simDecideV2 now st).1 = .landed := by rw [hdec]; simp
  obtain ⟨p1, p2, p3, p4, p5, p6, p7, p8, p9⟩ := stepV2_proj st now h0 hnl
  refine ⟨?_, ?_, ?_, ?_, ?_, ?_, ?_, p8⟩
  · rw [p1, hdt, hiz, hsz, hvz]
  · rw [p2, hdt, hiv, hvz]
  · rw [p3, hdec]
  · rw [p4, hdec]
  · rw [p5, hfl]
  · rw [p6, hsp]
  · rw [p7, ht0]

theorem stepV2_pow_to_burnout (st : SimState) (now last : ℕ) (z v : ℚ)
    (hproj : simProj st z v .poweredAscent false last)
    (hz : 0 ≤ z) (hv : 0 ≤ v)
    (hnow : now = last + 50) (hlo : 103600 ≤ now)
    (hz5 : 5 < z + (v + 12219/2000) * (1/20)) :
    simProj (stepSimV2 now st).1 (z + (v + 12219/2000) * (1/20)) (v + 12219/2000)
      .burnout false now := by
  obtain ⟨hsz, hvz, hph, hla, hfl, hsp, ht0, hls⟩ := hproj
  have h0 : ¬ st.t0 = 0 := by rw [ht0]; norm_num
  have hdt : simDt now st = 1/20 := simDt_50 now st (by rw [hls]; exact hnow)
  obtain ⟨hiv, hiz⟩ := integrateV2_powered st hph (by rw [hsz]; exact hz) (by rw [hvz]; exact hv)
  obtain ⟨ht2, ht36⟩ := tick_t_coast now hlo
  have hvp : 0 < v + 12219/2000 := by linarith
  have hdec : simDecideV2 now st = (.burnout, false) := by
    unfold simDecideV2
    rw [hdt, hiz, hiv, hla, hsz, hvz, simT_100000 now st ht0]
    exact decidePhaseV2_coast_burnout _ _ _ ht2 ht36 hz5 hvp
  have hnl : ¬ (simDecideV2 now st).1 = .landed := by rw [hdec]; simp
  obtain ⟨p1, p2, p3, p4, p5, p6, p7, p8, p9⟩ := stepV2_proj st now h0 hnl
  refine ⟨?_, ?_, ?_, ?_, ?_, ?_, ?_, p8⟩
  · rw [p1, hdt, hiz, hsz, hvz]
  · rw [p2, hdt, hiv, hvz]
  · rw [p3, hdec]
  · rw [p4, hdec]
  · rw [p5, hfl]
  · rw [p6, hsp]
  · rw [p7, ht0]

theorem stepV2_coast1 (st : SimState) (now last : ℕ) (z v : ℚ)
    (hproj : simProj st z v .burnout false last)
    (hnow : now = last + 50) (hge : 103600 ≤ now)
    (hz5 : 5 < z + coastVstep v * (1/20))
    (hv : 0 < coastVstep v) :
    simProj (stepSimV2 now st).1 (z + coastVstep v * (1/20)) (coastVstep v)
      .burnout false now ∧
    (stepSimV2 now st).2 = some .burnout := by
  obtain ⟨hsz, hvz, hph, hla, hfl, hsp, ht0, hls⟩ := hproj
  have h0 : ¬ st.t0 = 0 := by rw [ht0]; norm_num
  have hdt : simDt now st = 1/20 := simDt_50 now st (by rw [hls]; exact hnow)
  obtain ⟨hiv, hiz⟩ := integrateV2_coast st (Or.inl hph)
    (by rw [hsz, hvz]; intro hlt; linarith)
  obtain ⟨ht2, ht36⟩ := tick_t_coast now hge
  have hdec : simDecideV2 now st = (.burnout, false) := by
    unfold simDecideV2
    rw [hdt, hiz, hiv, hla, hsz, hvz, simT_100000 now st ht0]
    exact decidePhaseV2_coast_burnout _ _ _ ht2 ht36 hz5 hv
  have hnl : ¬ (simDecideV2 now st).1 = .landed := by rw [hdec]; simp
  obtain ⟨p1, p2, p3, p4, p5, p6, p7, p8, p9⟩ := stepV2_proj st now h0 hnl
  refine ⟨⟨?_, ?_, ?_, ?_, ?_, ?_, ?_, p8⟩, ?_⟩
  · rw [p1, hdt, hiz, hsz, hvz]
  · rw [p2, hdt, hiv, hvz]
  · rw [p3, hdec]
  · rw [p4, hdec]
  · rw [p5, hfl]
  · rw [p6, hsp]
  · rw [p7, ht0]
  · rw [p9, hdec]

theorem stepV2_coast2 (st : SimState) (now last : ℕ) (z v : ℚ)
    (hproj : simProj st z v .burnout false last)
    (hnow : now = last + 50) (hge : 103600 ≤ now)
    (hz5 : 5 < z + coastVstep v * (1/20))
    (hv : coastVstep v ≤ 0) :
    simProj (stepSimV2 now st).1 (z + coastVstep v * (1/20)) (coastVstep v)
      .apogee true now ∧
    (stepSimV2 now st).2 = some .apogee := by
  obtain ⟨hsz, hvz, hph, hla, hfl, hsp, ht0, hls⟩ := hproj
  have h0 : ¬ st.t0 = 0 := by rw [ht0]; norm_num
  have hdt : simDt now st = 1/20 := simDt_50 now st (by rw [hls]; exact hnow)
  obtain ⟨hiv, hiz⟩ := integrateV2_coast st (Or.inl hph)
    (by rw [hsz, hvz]; intro hlt; linarith)
  obtain ⟨ht2, ht36⟩ := tick_t_coast now hge
  have hdec : simDecideV2 now st = (.apogee, true) := by
    unfold simDecideV2
    rw [hdt, hiz, hiv, hla, hsz, hvz, simT_100000 now st ht0]
    exact decidePhaseV2_coast_apogee _ _ _ ht2 ht36 hz5 hv
  have hnl : ¬ (simDecideV2 now st).1 = .landed := by rw [hdec]; simp
  obtain ⟨p1, p2, p3, p4, p5, p6, p7, p8, p9⟩ := stepV2_proj st now h0 hnl
  refine ⟨⟨?_, ?_, ?_, ?_, ?_, ?_, ?_, p8⟩, ?_⟩
  · rw [p1, hdt, hiz, hsz, hvz]
  · rw [p2, hdt, hiv, hvz]
  · rw [p3, hdec]
  · rw [p4, hdec]
  · rw [p5, hfl]
  · rw [p6, hsp]
  · rw [p7, ht0]
  · rw [p9, hdec]

theorem stepV2_coast3 (st : SimState) (now last : ℕ) (z v : ℚ)
    (hproj : simProj st z v .apogee true last)
    (hnow : now = last + 50) (hge : 103600 ≤ now)
    (hz6 : 600 < z + coastVstep v * (1/20))
    (hv : coastVstep v < 0) :
    simProj (stepSimV2 now st).1 (z + coastVstep v * (1/20)) (coastVstep v)
      .burnout true now ∧
    (stepSimV2 now st).2 = some .burnout := by
  obtain ⟨hsz, hvz, hph, hla, hfl, hsp, ht0, hls⟩ := hproj
  have h0 : ¬ st.t0 = 0 := by rw [ht0]; norm_num
  have hdt : simDt now st = 1/20 := simDt_50 now st (by rw [hls]; exact hnow)
  obtain ⟨hiv, hiz⟩ := integrateV2_coast st (Or.inr hph)
    (by rw [hsz, hvz]; intro hlt; linarith)
  obtain ⟨ht2, ht36⟩ := tick_t_coast now hge
  have hz5 : 5 < z + coastVstep v * (1/20) := by linarith
  have hdec : simDecideV2 now st = (.burnout, true) := by
    unfold simDecideV2
    rw [hdt, hiz, hiv, hla, hsz, hvz, simT_100000 now st ht0]
    exact decidePhaseV2_coast_reburn _ _ _ ht2 ht36 hz5 hv hz6
  have hnl : ¬ (simDecideV2 now st).1 = .landed := by rw [hdec]; simp
  obtain ⟨p1, p2, p3, p4, p5, p6, p7, p8, p9⟩ := stepV2_proj st now h0 hnl
  refine ⟨⟨?_, ?_, ?_, ?_, ?_, ?_, ?_, p8⟩, ?_⟩
  · rw [p1, hdt, hiz, hsz, hvz]
  · rw [p2, hdt, hiv, hvz]
  · rw [p3, hdec]
  · rw [p4, hdec]
  · rw [p5, hfl]
  · rw [p6, hsp]
  · rw [p7, ht0]
  · rw [p9, hdec]

theorem coastVstep_pos_eq (v : ℚ) (h : 0 < v) :
    coastVstep v = v - 981/2000 - 3/1000000 * (v * v) := by
  unfold coastVstep signQ
  rw [if_pos h, abs_of_pos h]
  ring

theorem coastVstep_ub (v : ℚ) (h : 0 < v) : coastVstep v ≤ v - 49/100 := by
  rw [coastVstep_pos_eq v h]
  nlinarith [mul_pos h h]

theorem coastVstep_lb (v : ℚ) (h : 0 < v) (hub : v ≤ 24438/125) :
    v - 61/100 ≤ coastVstep v := by
  rw [coastVstep_pos_eq v h]
  nlinarith [mul_le_mul hub hub h.le (by norm_num : (0:ℚ) ≤ 24438/125)]

theorem coastVstep_nonpos (v : ℚ) (hle : v ≤ 0) (hlb : -61/100 ≤ v) :
    coastVstep v < 0 ∧ -111/100 ≤ coastVstep v := by
  rcases lt_or_eq_of_le hle with hlt | heq
  · have he : coastVstep v = v - 981/2000 + 3/1000000 * (v * v) := by
      unfold coastVstep signQ
      rw [if_neg (by linarith), if_pos hlt, abs_of_neg hlt]
      ring
    have hvv : v * v ≤ 61/100 * (61/100) := by
      have h1 : (0:ℚ) ≤ -v := by linarith
      have h2 : -v ≤ 61/100 := by linarith
      nlinarith
    have hnn : 0 ≤ v * v := mul_self_nonneg v
    rw [he]
    constructor
    · linarith
    · linarith
  · subst heq
    norm_num [coastVstep, signQ]

theorem coastV_le160 : ∀ n, n ≤ 160 →
    (∀ m, m ≤ n → 0 < coastV m) ∧
    24438/125 - 61/100 * (n : ℚ) ≤ coastV n ∧ coastV n ≤ 24438/125 := by
  intro n
  induction n with
  | zero =>
      intro _
      refine ⟨?_, by norm_num [coastV], by norm_num [coastV]⟩
      intro m hm
      have hm0 : m = 0 := by omega
      rw [hm0]
      norm_num [coastV]
  | succ n ih =>
      intro h161
      obtain ⟨hpos, hlb, hub⟩ := ih (by omega)
      have hp : 0 < coastV n := hpos n le_rfl
      have hub1 : coastV (n + 1) ≤ 24438/125 := by
        rw [coastV_succ]
        have := coastVstep_ub (coastV n) hp
        linarith
      have hlb1 : 24438/125 - 61/100 * ((n : ℚ) + 1) ≤ coastV (n + 1) := by
        rw [coastV_succ]
        have := coastVstep_lb (coastV n) hp hub
        linarith
      have hc : ((n : ℚ) + 1) ≤ 160 := by exact_mod_cast h161
      have hppos : 0 < coastV (n + 1) := by linarith
      refine ⟨?_, by push_cast; linarith, hub1⟩
      intro m hm
      rcases Nat.lt_or_ge m (n + 1) with hlt | hge
      · exact hpos m (by omega)
      · have hme : m = n + 1 := by omega
        rw [hme]
        exact hppos

theorem coastV_ub_decr : ∀ n, (∀ m, m < n → 0 < coastV m) →
    coastV n ≤ 24438/125 - 49/100 * (n : ℚ) := by
  intro n
  induction n with
  | zero => intro _; norm_num [coastV]
  | succ n ih =>
      intro hpos
      have h1 := ih (fun m hm => hpos m (by omega))
      have hp := hpos n (by omega)
      have h2 := coastVstep_ub (coastV n) hp
      rw [coastV_succ]
      push_cast
      linarith

theorem coastV_ub_of_pos (n : ℕ) (hpos : ∀ m, m < n → 0 < coastV m) :
    coastV n ≤ 24438/125 := by
  have h1 := coastV_ub_decr n hpos
  have h0 : (0 : ℚ) ≤ (n : ℚ) := by positivity
  linarith

theorem exists_coast_cross : ∃ n, coastV n ≤ 0 := by
  by_contra h
  push_neg at h
  have h1 := coastV_ub_decr 400 (fun m _ => h m)
  have h2 := h 400
  norm_num at h1
  linarith

/-- The first coast tick at which the vertical velocity is no longer
positive: the tick of the uniform session that emits the apogee packet. -/
def NC : ℕ := Nat.find exists_coast_cross

theorem NC_cross : coastV NC ≤ 0 := Nat.find_spec exists_coast_cross

theorem NC_min : ∀ m, m < NC → 0 < coastV m := fun m hm =>
  lt_of_not_le (Nat.find_min exists_coast_cross hm)

theorem NC_gt160 : 160 < NC := by
  by_contra h
  push_neg at h
  have h1 := (coastV_le160 NC h).1 NC le_rfl
  have h2 := NC_cross
  linarith

theorem NC_le400 : NC ≤ 400 := by
  by_contra h
  push_neg at h
  have h1 := coastV_ub_decr 400 (fun m _ => NC_min m (by omega))
  have h2 := NC_min 400 (by omega)
  norm_num at h1
  linarith

theorem NC_vz_lb : -61/100 ≤ coastV NC := by
  obtain ⟨M, hM⟩ : ∃ M, NC = M + 1 := ⟨NC - 1, by have := NC_gt160; omega⟩
  have hp : 0 < coastV M := NC_min M (by omega)
  have hub : coastV M ≤ 24438/125 := coastV_ub_of_pos M (fun m hm => NC_min m (by omega))
  rw [hM, coastV_succ]
  have := coastVstep_lb (coastV M) hp hub
  linarith

theorem coastV_NC1 : coastV (NC + 1) < 0 ∧ -111/100 ≤ coastV (NC + 1) := by
  rw [coastV_succ]
  exact coastVstep_nonpos (coastV NC) NC_cross NC_vz_lb

theorem coastZ_lb160 : ∀ n : ℕ, n ≤ 160 → 403227/2500 + 97/20 * (n : ℚ) ≤ coastZ n := by
  intro n
  induction n with
  | zero => intro _; norm_num [coastZ]
  | succ n ih =>
      intro h
      have h1 := ih (by omega)
      obtain ⟨_, hlb, _⟩ := coastV_le160 (n + 1) h
      have hc : ((n : ℚ) + 1) ≤ 160 := by exact_mod_cast h
      push_cast at hlb
      have he : coastZ (n + 1) = coastZ n + coastV (n + 1) * (1/20) := by
        rw [coastZ_succ, coastV_succ]
      rw [he]
      push_cast
      linarith

theorem coastZ_plateau : ∀ k, 160 + k < NC → 937 ≤ coastZ (160 + k) := by
  intro k
  induction k with
  | zero =>
      intro _
      have h1 := coastZ_lb160 160 le_rfl
      norm_num at h1
      linarith
  | succ k ih =>
      intro h
      have h1 := ih (by omega)
      have hpos : 0 < coastV (160 + k + 1) := NC_min _ (by omega)
      have he : coastZ (160 + (k + 1)) = coastZ (160 + k) + coastV (160 + k + 1) * (1/20) := by
        rw [show 160 + (k + 1) = (160 + k) + 1 from rfl, coastZ_succ, coastV_succ]
      rw [he]
      linarith

theorem coastZ_before (m : ℕ) (hm : m < NC) : 161 ≤ coastZ m := by
  rcases Nat.lt_or_ge m 161 with h | h
  · have h1 := coastZ_lb160 m (by omega)
    have h0 : (0 : ℚ) ≤ (m : ℚ) := by positivity
    linarith
  · obtain ⟨k, hk⟩ : ∃ k, m = 160 + k := ⟨m - 160, by omega⟩
    rw [hk]
    have := coastZ_plateau k (by omega)
    linarith

theorem coastZ_NC600 : 600 < coastZ NC ∧ 600 < coastZ (NC + 1) := by
  obtain ⟨M, hM⟩ : ∃ M, NC = M + 1 := ⟨NC - 1, by have := NC_gt160; omega⟩
  have hB : 937 ≤ coastZ M := by
    obtain ⟨k, hk⟩ : ∃ k, M = 160 + k := ⟨M - 160, by have := NC_gt160; omega⟩
    rw [hk]
    exact coastZ_plateau k (by have := hM; omega)
  have hVNC : -61/100 ≤ coastV NC := NC_vz_lb
  have h0 : 930 ≤ coastZ NC := by
    have he : coastZ NC = coastZ M + coastV NC * (1/20) := by
      rw [hM, coastZ_succ, coastV_succ]
    rw [he]
    linarith
  have h2 : 600 < coastZ (NC + 1) := by
    have he : coastZ (NC + 1) = coastZ NC + coastV (NC + 1) * (1/20) := by
      rw [coastZ_succ, coastV_succ]
    have h3 := coastV_NC1.2
    rw [he]
    linarith
  exact ⟨by linarith, h2⟩

theorem runPre : ∀ n : ℕ, n ≤ 39 →
    simProj (simAfter (n + 1)) 0 0 .preFlight false (100000 + 50 * n) := by
  intro n
  induction n with
  | zero =>
      intro _
      exact ⟨rfl, rfl, rfl, rfl, rfl, rfl, rfl, rfl⟩
  | succ n ih =>
      intro h
      have hprev := ih (by omega)
      rw [simAfter_succ (n + 1)]
      exact stepV2_runPre (simAfter (n + 1)) (100000 + 50 * (n + 1)) (100000 + 50 * n)
        0 0 hprev rfl rfl (by omega) (by omega)

theorem run40 : simProj (simAfter 41) 0 0 .poweredAscent false 102000 := by
  have hprev := runPre 39 (by norm_num)
  have hstep := stepV2_pre_to_pow (simAfter 40) 102000 (100000 + 50 * 39)
    0 0 hprev rfl rfl (by omega) (by omega) (by omega)
  rw [show (41 : ℕ) = 40 + 1 from rfl, simAfter_succ 40]
  exact hstep

theorem runPow : ∀ m : ℕ, m ≤ 31 →
    simProj (simAfter (41 + m)) (12219/80000 * ((m : ℚ) * ((m : ℚ) + 1)))
      (12219/2000 * (m : ℚ)) .poweredAscent false (102000 + 50 * m) := by
  intro m
  induction m with
  | zero =>
      intro _
      simpa using run40
  | succ m ih =>
      intro h
      have hprev := ih (by omega)
      have hstep := stepV2_powStep (simAfter (41 + m)) (100000 + 50 * (41 + m))
        (102000 + 50 * m) (12219/80000 * ((m : ℚ) * ((m : ℚ) + 1))) (12219/2000 * (m : ℚ))
        hprev (by positivity) (by positivity) (by omega) (by omega) (by omega)
      rw [show 41 + (m + 1) = (41 + m) + 1 from rfl, simAfter_succ (41 + m)]
      obtain ⟨q1, q2, q3, q4, q5, q6, q7, q8⟩ := hstep
      refine ⟨?_, ?_, q3, q4, q5, q6, q7, ?_⟩
      · rw [q1]
        push_cast
        ring
      · rw [q2]
        push_cast
        ring
      · rw [q8]
        omega

set_option maxRecDepth 4000 in
theorem run72 : simProj (simAfter 73) (403227/2500) (24438/125) .burnout false 103600 := by
  have hprev := runPow 31 (by norm_num)
  norm_num at hprev
  have hstep := stepV2_pow_to_burnout (simAfter 72) 103600 103550
    (378789/2500) (378789/2000)
    hprev (by norm_num) (by norm_num) (by omega) (by omega) (by norm_num)
  rw [show (73 : ℕ) = 72 + 1 by norm_num, simAfter_succ 72]
  obtain ⟨q1, q2, q3, q4, q5, q6, q7, q8⟩ := hstep
  refine ⟨?_, ?_, q3, q4, q5, q6, q7, ?_⟩
  · rw [q1]
    norm_num
  · rw [q2]
    norm_num
  · rw [q8]

theorem runCoast : ∀ n : ℕ, n < NC →
    simProj (simAfter (73 + n)) (coastZ n) (coastV n) .burnout false (103600 + 50 * n) := by
  intro n
  induction n with
  | zero =>
      intro _
      simpa [coastZ, coastV] using run72
  | succ n ih =>
      intro h
      have hprev := ih (by omega)
      have hz1 : 161 ≤ coastZ (n + 1) := coastZ_before (n + 1) h
      have hv1 : 0 < coastV (n + 1) := NC_min (n + 1) h
      rw [coastV_succ] at hv1
      have hz5 : 5 < coastZ n + coastVstep (coastV n) * (1/20) := by
        rw [show coastZ n + coastVstep (coastV n) * (1/20) = coastZ (n + 1) from
          (coastZ_succ n).symm]
        linarith
      have hstep := stepV2_coast1 (simAfter (73 + n)) (100000 + 50 * (73 + n))
        (103600 + 50 * n) (coastZ n) (coastV n) hprev (by omega) (by omega) hz5 hv1
      rw [show 73 + (n + 1) = (73 + n) + 1 from rfl, simAfter_succ (73 + n)]
      obtain ⟨⟨q1, q2, q3, q4, q5, q6, q7, q8⟩, _⟩ := hstep
      refine ⟨?_, ?_, q3, q4, q5, q6, q7, ?_⟩
      · rw [q1]
        exact (coastZ_succ n).symm
      · rw [q2]
        exact (coastV_succ n).symm
      · rw [q8]
        omega

theorem chain_pair {α : Type} (R : α → α → Prop) :
    ∀ (X : List α) (a b : α) (Y : List α),
      List.Chain' R (X ++ a :: b :: Y) → R a b := by
  intro X
  induction X with
  | nil =>
      intro a b Y h
      exact (List.chain'_cons.mp h).1
  | cons x xs ih =>
      intro a b Y h
      rw [List.cons_append] at h
      exact ih a b Y h.tail

set_option maxRecDepth 8000 in
/-- C1, counterexample to the claim as stated: in a nominal uniform-50 ms
session of the canonical simulator (admissible tick times: positive and
non-decreasing), the sequence of emitted phases violates the claim's
transition relation — the packet carrying `apogee` is followed by one
carrying `burnout`, a backward transition that is not the claim's
`burnout`-to-`apogee` exception. -/
theorem spec_phase_forward_claim_counterexample :
    (∀ x ∈ uniformTicks 500, 0 < x) ∧
    List.Chain' (· ≤ ·) (uniformTicks 500) ∧
    ¬ List.Chain' claimC1Allowed (emittedV2 (uniformTicks 500)) := by
  refine ⟨?_, ?_, ?_⟩
  · intro x hx
    simp only [uniformTicks, List.mem_map, List.mem_range] at hx
    obtain ⟨k, hk, hkx⟩ := hx
    omega
  · unfold uniformTicks
    rw [List.chain'_map]
    rw [show (500 : ℕ) = 499 + 1 from by norm_num]
    rw [List.chain'_range_succ]
    intro m hm
    omega
  · intro hch
    have h160 := NC_gt160
    have h400 := NC_le400
    obtain ⟨M, hM⟩ : ∃ M, NC = M + 1 := ⟨NC - 1, by omega⟩
    have hMlt : M < NC := by omega
    have hSB := runCoast M hMlt
    have hv1 : coastVstep (coastV M) ≤ 0 := by
      have h1 : coastV (M + 1) ≤ 0 := by rw [← hM]; exact NC_cross
      rw [coastV_succ] at h1
      exact h1
    have hz600 : 600 < coastZ (M + 1) := by rw [← hM]; exact coastZ_NC600.1
    have hzs1 : coastZ M + coastVstep (coastV M) * (1/20) = coastZ (M + 1) :=
      (coastZ_succ M).symm
    have hstep1 := stepV2_coast2 (simAfter (73 + M)) (100000 + 50 * (73 + M))
      (103600 + 50 * M) (coastZ M) (coastV M) hSB (by omega) (by omega)
      (by rw [hzs1]; linarith) hv1
    obtain ⟨hSA, hemit1⟩ := hstep1
    have hSA2 : simProj (stepSimV2 (100000 + 50 * (73 + M)) (simAfter (73 + M))).1
        (coastZ (M + 1)) (coastV (M + 1)) .apogee true (100000 + 50 * (73 + M)) := by
      obtain ⟨a1, a2, a3, a4, a5, a6, a7, a8⟩ := hSA
      exact ⟨by rw [a1]; exact hzs1, by rw [a2]; exact (coastV_succ M).symm,
        a3, a4, a5, a6, a7, a8⟩
    have hv2 : coastVstep (coastV (M + 1)) < 0 := by
      have h1 : coastV (NC + 1) < 0 := coastV_NC1.1
      rw [hM, coastV_succ] at h1
      exact h1
    have hz600b : 600 < coastZ ((M + 1) + 1) := by
      have h1 := coastZ_NC600.2
      rw [hM] at h1
      exact h1
    have hzs2 : coastZ (M + 1) + coastVstep (coastV (M + 1)) * (1/20) = coastZ ((M + 1) + 1) :=
      (coastZ_succ (M + 1)).symm
    have hstep2 := stepV2_coast3 ((stepSimV2 (100000 + 50 * (73 + M)) (simAfter (73 + M))).1)
      (100000 + 50 * (74 + M)) (100000 + 50 * (73 + M)) (coastZ (M + 1)) (coastV (M + 1))
      hSA2 (by omega) (by omega) (by rw [hzs2]; linarith) hv2
    obtain ⟨hSC, hemit2⟩ := hstep2
    have hC : (runSimV2 (simAfter (73 + M))
        [100000 + 50 * (73 + M), 100000 + 50 * (74 + M)]).2
        = [.apogee, .burnout] := by
      rw [runSimV2_cons, runSimV2_cons, hemit1, hemit2]
      simp [runSimV2]
    have hM399 : M ≤ 399 := by omega
    have hsplit1 : uniformTicks 500 = uniformTicks (75 + M) ++
        (List.range (425 - M)).map (fun k => 100000 + 50 * ((75 + M) + k)) := by
      rw [show (500 : ℕ) = (75 + M) + (425 - M) from by omega]
      exact uniformTicks_add _ _
    have hsplit2 : uniformTicks (75 + M) = uniformTicks (73 + M) ++
        [100000 + 50 * (73 + M), 100000 + 50 * (74 + M)] := by
      rw [show 75 + M = (73 + M) + 2 from by omega, uniformTicks_add]
      rw [show List.range 2 = [0, 1] from rfl]
      simp
      omega
    have hdef : (runSimV2 initSimState (uniformTicks (73 + M))).1 = simAfter (73 + M) := rfl
    have hE : emittedV2 (uniformTicks 500) =
        (runSimV2 initSimState (uniformTicks (73 + M))).2 ++
        ([.apogee, .burnout] ++
          (runSimV2 (runSimV2 (simAfter (73 + M))
            [100000 + 50 * (73 + M), 100000 + 50 * (74 + M)]).1
            ((List.range (425 - M)).map (fun k => 100000 + 50 * ((75 + M) + k)))).2) := by
      unfold emittedV2
      rw [hsplit1, hsplit2, runSimV2_append_snd, runSimV2_append_snd, runSimV2_append_fst,
        hdef, hC, List.append_assoc]
    rw [hE] at hch
    have hR := chain_pair claimC1Allowed _ .apogee .burnout _ hch
    norm_num [claimC1Allowed, FlightPhase.rank] at hR
    exact FlightPhase.noConfusion hR.1
